import Mathlib

/-!
Verification of the retrieval federation layer (`code/retrieval/retriever.py`)
and the relevance precheck (`code/pre_retrieval/relevance_detection.py`).

The source is shallowly embedded: Python lists become `List`, dictionaries
become association lists iterated in insertion order, Python string
truthiness (`if s:`) becomes a test against the empty string, optional
values become `Option`, and raised exceptions become `Except.error`.
While-loops are embedded with an explicit fuel argument so every definition
stays structurally recursive (hence kernel-computable); the fuel passed at
the top level always exceeds the loop measure, which the accompanying
lemmas verify.
-/

set_option autoImplicit false

/-- A search result row as handled by `VectorDBClient`: the Python code
receives each result as a list (expected shape `[url, json, name, site]`,
possibly shorter or longer when a backend misbehaves). -/
abbrev Row := List String

/-- Structured JSON values, used to model the payload merging that
`_aggregate_results` delegates to `utils.json_utils.merge_json_array`. -/
inductive Json where
  | null : Json
  | bool (b : Bool) : Json
  | num (n : Int) : Json
  | str (s : String) : Json
  | arr (xs : List Json) : Json
  | obj (fields : List (String × Json)) : Json

/-- The character that opens a JSON object. -/
def lbraceChar : Char := Char.ofNat 123

/-- The character that closes a JSON object. -/
def rbraceChar : Char := Char.ofNat 125

/-- The double-quote character. -/
def quoteChar : Char := Char.ofNat 34

/-- Drop leading JSON whitespace. -/
def skipWs : List Char → List Char
  | [] => []
  | c :: cs => if c = ' ' ∨ c = '\n' ∨ c = '\t' ∨ c = '\r' then skipWs cs else c :: cs

/-- Read the characters of a string literal up to the closing quote
(escape sequences are not modelled; payloads in this development contain
none). Returns the contents and the remainder after the closing quote. -/
def takeStringChars : List Char → Option (List Char × List Char)
  | [] => none
  | c :: cs =>
    if c = quoteChar then some ([], cs)
    else match takeStringChars cs with
      | some (body, rest) => some (c :: body, rest)
      | none => none

/-- Read a run of decimal digits. -/
def takeDigits : List Char → List Char × List Char
  | [] => ([], [])
  | c :: cs =>
    if c.isDigit then
      let (ds, rest) := takeDigits cs
      (c :: ds, rest)
    else ([], c :: cs)

/-- Numeric value of a digit run. -/
def digitsToNat (ds : List Char) : Nat :=
  ds.foldl (fun n c => n * 10 + (c.toNat - 48)) 0

mutual

/-- Recursive-descent JSON value parser (fuel-indexed so that it is
structurally recursive). -/
def parseV : Nat → List Char → Option (Json × List Char)
  | 0, _ => none
  | fuel + 1, cs =>
    match skipWs cs with
    | [] => none
    | c :: rest =>
      if c = quoteChar then
        match takeStringChars rest with
        | some (body, rem) => some (Json.str (String.mk body), rem)
        | none => none
      else if c = lbraceChar then
        match skipWs rest with
        | c2 :: r2 =>
          if c2 = rbraceChar then some (Json.obj [], r2)
          else
            match parseMembers fuel (c2 :: r2) [] with
            | some (fs, r3) => some (Json.obj fs, r3)
            | none => none
        | [] => none
      else if c = '[' then
        match skipWs rest with
        | c2 :: r2 =>
          if c2 = ']' then some (Json.arr [], r2)
          else
            match parseItems fuel (c2 :: r2) [] with
            | some (vs, r3) => some (Json.arr vs, r3)
            | none => none
        | [] => none
      else if c = '-' then
        match takeDigits rest with
        | ([], _) => none
        | (ds, rem) => some (Json.num (-(digitsToNat ds : Int)), rem)
      else if c.isDigit then
        match takeDigits (c :: rest) with
        | ([], _) => none
        | (ds, rem) => some (Json.num (digitsToNat ds : Int), rem)
      else if (c :: rest).take 4 = ['t', 'r', 'u', 'e'] then
        some (Json.bool true, (c :: rest).drop 4)
      else if (c :: rest).take 5 = ['f', 'a', 'l', 's', 'e'] then
        some (Json.bool false, (c :: rest).drop 5)
      else if (c :: rest).take 4 = ['n', 'u', 'l', 'l'] then
        some (Json.null, (c :: rest).drop 4)
      else none

/-- Parse the members of a JSON object, starting at the first key. -/
def parseMembers : Nat → List Char → List (String × Json) → Option (List (String × Json) × List Char)
  | 0, _, _ => none
  | fuel + 1, cs, acc =>
    match skipWs cs with
    | [] => none
    | c :: rest =>
      if c = quoteChar then
        match takeStringChars rest with
        | some (key, r1) =>
          (match skipWs r1 with
           | ':' :: r2 =>
             (match parseV fuel r2 with
              | some (v, r3) =>
                (match skipWs r3 with
                 | ',' :: r4 => parseMembers fuel r4 (acc ++ [(String.mk key, v)])
                 | c5 :: r5 =>
                   if c5 = rbraceChar then some (acc ++ [(String.mk key, v)], r5) else none
                 | [] => none)
              | none => none)
           | _ => none)
        | none => none
      else none

/-- Parse the items of a JSON array, starting at the first item. -/
def parseItems : Nat → List Char → List Json → Option (List Json × List Char)
  | 0, _, _ => none
  | fuel + 1, cs, acc =>
    match parseV fuel cs with
    | some (v, r1) =>
      (match skipWs r1 with
       | ',' :: r2 => parseItems fuel r2 (acc ++ [v])
       | ']' :: r2 => some (acc ++ [v], r2)
       | _ => none)
    | none => none

end

/-- Parse a complete JSON document (modelling `json.loads`); fails if
trailing input remains. -/
def parseJson (s : String) : Option Json :=
  match parseV (s.length * 2 + 8) s.toList with
  | some (j, rest) => if (skipWs rest).isEmpty then some j else none
  | none => none

/-- First field bound to a key in a JSON object field list. -/
def lookupField (k : String) : List (String × Json) → Option Json
  | [] => none
  | (k2, v) :: rest => if k2 = k then some v else lookupField k rest

mutual

/-- Structural size of a JSON value, used as recursion fuel for the
deep merge and the serializer. -/
def jsize : Json → Nat
  | Json.null => 1
  | Json.bool _ => 1
  | Json.num _ => 1
  | Json.str _ => 1
  | Json.arr xs => 1 + jsizeList xs
  | Json.obj fs => 1 + jsizeFields fs

/-- Total size of a list of JSON values. -/
def jsizeList : List Json → Nat
  | [] => 0
  | x :: xs => jsize x + jsizeList xs

/-- Total size of a JSON object field list. -/
def jsizeFields : List (String × Json) → Nat
  | [] => 0
  | p :: ps => jsize p.2 + jsizeFields ps

end

/-- Fuel-indexed deep merge of two JSON values; see `deepMerge`. -/
def deepMergeF : Nat → Json → Json → Json
  | 0, x, _ => x
  | fuel + 1, x, y =>
    match x, y with
    | Json.obj a, Json.obj b =>
      Json.obj
        (a.map (fun p =>
            match lookupField p.1 b with
            | some w => (p.1, deepMergeF fuel p.2 w)
            | none => p)
          ++ b.filter (fun q => (lookupField q.1 a).isNone))
    | Json.arr a, Json.arr b => Json.arr (a ++ b)
    | x, _ => x

/-- Modelled from the spec: the deep-merge semantics of
`utils.json_utils.merge_json_array` (the module is not under `src/`).
Per the spec, payloads are "deep-merged into one combined structure
(array/object union semantics — later sources add or extend fields rather
than overwrite)": objects merge key-wise (keys of the earlier source are
kept and recursively merged with later values, keys only present in the
later source are appended), arrays are concatenated, and on any other
conflict the earlier value wins. -/
def deepMerge (x y : Json) : Json := deepMergeF (jsize x) x y

/-- Modelled from the spec: `merge_json_array` from `utils.json_utils`
(not under `src/`). It receives the list of JSON payload strings collected
for one URL, parses them, and deep-merges them left to right into one
combined structure; unparsable entries contribute nothing. -/
def merge_json_array (json_list : List String) : Json :=
  match json_list.filterMap parseJson with
  | [] => Json.obj []
  | x :: xs => xs.foldl deepMerge x

/-- Fuel-indexed serializer behind `dumps`. -/
def dumpsF : Nat → Json → String
  | 0, _ => ""
  | fuel + 1, j =>
    match j with
    | Json.null => "null"
    | Json.bool true => "true"
    | Json.bool false => "false"
    | Json.num n => toString n
    | Json.str s => String.mk (quoteChar :: s.toList) ++ String.mk [quoteChar]
    | Json.arr xs => "[" ++ String.intercalate (", ") ((xs.map (dumpsF fuel))) ++ "]"
    | Json.obj fs =>
      String.mk [lbraceChar]
        ++ String.intercalate (", ")
            (fs.map (fun p => String.mk (quoteChar :: p.1.toList) ++ String.mk [quoteChar] ++ (": ") ++ dumpsF fuel p.2))
        ++ String.mk [rbraceChar]

/-- Serialization of a JSON value in the style of Python's `json.dumps`
default separators, modelling the `json.dumps(merged_json)` call in
`_aggregate_results`. -/
def dumps (j : Json) : String := dumpsF (jsize j) j

/-- Whether a key occurs at the top level of a JSON object. -/
def Json.hasKey (j : Json) (k : String) : Bool :=
  match j with
  | Json.obj fs => fs.any (fun p => p.1 = k)
  | _ => false

/-- Generic association-list lookup, modelling Python dictionary access
(`d[k]` / `d.get(k)` / `k in d`). -/
def alookup {α : Type} : List (String × α) → String → Option α
  | [], _ => none
  | (k, v) :: rest, u => if k = u then some v else alookup rest u

/-- Generic association-list update of an existing key, modelling Python
dictionary assignment `d[k] = v` for a key already present. -/
def aupdate {α : Type} : List (String × α) → String → α → List (String × α)
  | [], _, _ => []
  | (k, v) :: rest, u, d => if k = u then (k, d) :: rest else (k, v) :: aupdate rest u d

/-- Python truthiness of an optional string (`None` and the empty string
are falsy). -/
def isTruthy : Option String → Bool
  | none => false
  | some s => s ≠ ""

/-- One retrieval endpoint configuration, as consumed by
`VectorDBClient` (`config.db_type`, `config.enabled`, `config.api_key`,
`config.api_endpoint`, `config.database_path`). -/
structure EndpointConfig where
  db_type : String
  enabled : Bool
  api_key : Option String
  api_endpoint : Option String
  database_path : Option String

/-- Embedding of `VectorDBClient._has_valid_credentials`: decide whether an
endpoint has the credentials its database type requires. The `name`
argument is only used for logging in the source and is ignored here. -/
def _has_valid_credentials (_name : String) (config : EndpointConfig) : Bool :=
  let db_type := config.db_type
  if db_type = "azure_ai_search" ∨ db_type = "snowflake_cortex_search" then
    isTruthy config.api_key && isTruthy config.api_endpoint
  else if db_type = "opensearch" then
    isTruthy config.api_endpoint && isTruthy config.api_key
  else if db_type = "qdrant" then
    if isTruthy config.database_path then true
    else isTruthy config.api_endpoint
  else if db_type = "milvus" then
    isTruthy config.database_path
  else
    false

/-- The per-URL aggregation record built by the first pass of
`_aggregate_results` (the value stored in `url_to_data`). -/
structure UrlData where
  url : String
  json_list : List String
  name : String
  site : String
  first_endpoint : String

/-- First pass of `_aggregate_results`, one result row: rows with at least
four elements `[url, json, name, site, ...]` are recorded under their URL
(creating the record on first occurrence, appending the JSON payload on
later occurrences, in both cases only when the payload is truthy); shorter
rows are skipped. -/
def pass1Insert (endpoint_name : String) (result : Row) (acc : List (String × UrlData)) :
    List (String × UrlData) :=
  match result with
  | url :: json_data :: name :: site :: _ =>
    match alookup acc url with
    | none =>
      acc ++ [(url,
        { url := url
          json_list := if json_data ≠ "" then [json_data] else []
          name := name
          site := site
          first_endpoint := endpoint_name })]
    | some d =>
      aupdate acc url { d with json_list := d.json_list ++ (if json_data ≠ "" then [json_data] else []) }
  | _ => acc

/-- First pass of `_aggregate_results`: fold `pass1Insert` over every
endpoint's result list, in endpoint order then row order, starting from the
empty `url_to_data` dictionary. -/
def pass1 (endpoint_results : List (String × List Row)) : List (String × UrlData) :=
  endpoint_results.foldl (fun acc p => p.2.foldl (fun a r => pass1Insert p.1 r a) acc) []

/-- The merged JSON string built for one URL in the second pass of
`_aggregate_results`: several collected payloads are merged and
re-serialized, a single one is used as is, none yields the empty object
string. -/
def mergedPayload (json_list : List String) : String :=
  if 1 < json_list.length then dumps (merge_json_array json_list)
  else json_list.headD ("\x7b\x7d")

/-- One emission step of the second pass of `_aggregate_results`: given the
next row drawn from some endpoint iterator, emit the URL-merged record the
first time a non-empty URL is seen (provided pass 1 recorded it), extending
the seen set and the output accumulator. -/
def emitStep (url_to_data : List (String × UrlData)) (result : Row)
    (seen_urls : List String) (final_results : List Row) : List String × List Row :=
  match result with
  | url :: _ =>
    if url ≠ "" ∧ url ∉ seen_urls then
      let seen2 := url :: seen_urls
      match alookup url_to_data url with
      | some d => (seen2, final_results ++ [[d.url, mergedPayload d.json_list, d.name, d.site]])
      | none => (seen2, final_results)
    else (seen_urls, final_results)
  | [] => (seen_urls, final_results)

/-- One round of the interleaving loop of `_aggregate_results`: every live
iterator in order either yields its next row (which goes through
`emitStep`) or is exhausted and marked for removal; the returned iterator
list is the surviving iterators with their remaining rows. -/
def processRound (url_to_data : List (String × UrlData)) :
    List (String × List Row) → List String → List Row →
      List (String × List Row) × List String × List Row
  | [], seen, acc => ([], seen, acc)
  | (name, rows) :: rest, seen, acc =>
    match rows with
    | [] => processRound url_to_data rest seen acc
    | r :: rs =>
      let sa := emitStep url_to_data r seen acc
      let t := processRound url_to_data rest sa.1 sa.2
      ((name, rs) :: t.1, t.2.1, t.2.2)

/-- The iterator bookkeeping of one round in isolation: exhausted iterators
are removed, the others advance past the row they yielded. -/
def stepIters : List (String × List Row) → List (String × List Row)
  | [] => []
  | (_, []) :: rest => stepIters rest
  | (name, _ :: rs) :: rest => (name, rs) :: stepIters rest

/-- Termination measure of the interleaving loop: every live iterator
counts one plus its remaining rows. -/
def itersMeasure (iters : List (String × List Row)) : Nat :=
  (iters.map (fun p => p.2.length + 1)).sum

/-- Fuel-indexed interleaving loop of `_aggregate_results` (the
`while iterators:` loop); `interleaveLoop` supplies sufficient fuel. -/
def interleaveGo (url_to_data : List (String × UrlData)) :
    Nat → List (String × List Row) → List String → List Row → List Row
  | 0, _, _, acc => acc
  | fuel + 1, iters, seen, acc =>
    if iters.isEmpty then acc
    else
      let t := processRound url_to_data iters seen acc
      interleaveGo url_to_data fuel t.1 t.2.1 t.2.2

/-- The interleaving loop of `_aggregate_results`, run to completion. -/
def interleaveLoop (url_to_data : List (String × UrlData))
    (iters : List (String × List Row)) (seen : List String) (acc : List Row) : List Row :=
  interleaveGo url_to_data (itersMeasure iters + 1) iters seen acc

/-- Embedding of `VectorDBClient._aggregate_results`: pass 1 groups all
rows by URL into `url_to_data`; pass 2 creates one iterator per endpoint
with results and round-robin interleaves them, emitting each URL's merged
record at its first encounter. -/
def _aggregate_results (endpoint_results : List (String × List Row)) : List Row :=
  let url_to_data := pass1 endpoint_results
  let iterators := endpoint_results.filter (fun p => !p.2.isEmpty)
  interleaveLoop url_to_data iterators [] []

/-- The URL field of a result row (its first element; `""` when absent). -/
def urlOf (r : Row) : String := r.headD ""

/-- Follows the spec's words ("round-robin interleaving of the per-endpoint
lists, one item taken from each endpoint's list per round, skipping
endpoints already exhausted"), fuel-indexed; `roundRobin` supplies
sufficient fuel. -/
def roundRobinGo : Nat → List (List Row) → List Row
  | 0, _ => []
  | fuel + 1, ls =>
    match ls.filterMap (fun l => l.head?) with
    | [] => []
    | h :: hs => (h :: hs) ++ roundRobinGo fuel (ls.filterMap (fun l => l.tail?))

/-- Follows the spec's words: round-robin interleave of a list of lists. -/
def roundRobin (ls : List (List Row)) : List Row :=
  roundRobinGo ((ls.map List.length).sum + 1) ls

/-- Follows the spec's words ("emitting a URL's merged record the first
time that URL is encountered in the interleave and suppressing later
re-encounters"): the subsequence of first encounters of a URL stream,
relative to an already-seen set. -/
def specFirstEncounters : List String → List String → List String
  | _, [] => []
  | seen, u :: us =>
    if u ∈ seen then specFirstEncounters seen us
    else u :: specFirstEncounters (u :: seen) us

/-- All truthy JSON payloads contributed for one URL by well-formed rows
(at least four elements), across all endpoints in order; this is the
payload list `_aggregate_results` accumulates for that URL. -/
def rowPayloadFor (u : String) (r : Row) : Option String :=
  match r with
  | url :: j :: _ :: _ :: _ => if url = u ∧ j ≠ "" then some j else none
  | _ => none

/-- Concatenation of a list of lists (in order). -/
def concatAll {α : Type} : List (List α) → List α
  | [] => []
  | l :: ls => l ++ concatAll ls

/-- The ordered list of payloads collected for URL `u` over a whole
endpoint-results map. -/
def payloadsFor (endpoint_results : List (String × List Row)) (u : String) : List String :=
  (concatAll (endpoint_results.map Prod.snd)).filterMap (rowPayloadFor u)

/-- Embedding of the result-collection phase of `VectorDBClient.search`
(the code after the fan-out: `if not tasks`, gather with
`return_exceptions=True`, the per-endpoint exception filter, the
`successful_endpoints == 0` escalation, aggregation, truncation). The
input is the list of dispatched endpoints paired with each query's
outcome. -/
def search (outcomes : List (String × Except String (List Row))) (num_results : Nat) :
    Except String (List Row) :=
  if outcomes.isEmpty then
    Except.error ("No valid endpoints available for search")
  else
    let endpoint_results := outcomes.filterMap (fun p =>
      match p.2 with
      | Except.ok r => some (p.1, r)
      | Except.error _ => none)
    if endpoint_results.isEmpty then
      Except.error ("All endpoint searches failed")
    else
      Except.ok ((_aggregate_results endpoint_results).take num_results)

/-- Embedding of `VectorDBClient.delete_documents_by_site`: the write
endpoint must be configured (Python truthiness), then the call delegates to
that endpoint's adapter; the `except` clause re-raises, so the adapter's
outcome — success or failure — is returned unchanged. The adapter argument
models `get_client(write_endpoint)` followed by the adapter call. -/
def delete_documents_by_site (write_endpoint : Option String)
    (adapter : String → String → Except String Nat) (site : String) : Except String Nat :=
  if isTruthy write_endpoint then
    match write_endpoint with
    | some w => adapter w site
    | none => Except.error ("No write endpoint configured for delete operations")
  else
    Except.error ("No write endpoint configured for delete operations")

/-- Embedding of `VectorDBClient.upload_documents`, analogous to
`delete_documents_by_site`. -/
def upload_documents (write_endpoint : Option String)
    (adapter : String → List String → Except String Nat) (documents : List String) :
    Except String Nat :=
  if isTruthy write_endpoint then
    match write_endpoint with
    | some w => adapter w documents
    | none => Except.error ("No write endpoint configured for upload operations")
  else
    Except.error ("No write endpoint configured for upload operations")

/-- The site filter passed to `_endpoint_has_site`: Python hands it either
a single string or a list of site names. -/
inductive SiteFilter where
  | str (s : String) : SiteFilter
  | list (l : List String) : SiteFilter
deriving DecidableEq

/-- The `sites_to_check` normalization inside `_endpoint_has_site`: a
string becomes a one-element list, a list is used as is. -/
def sitesToCheck : SiteFilter → List String
  | SiteFilter.str s => [s]
  | SiteFilter.list l => l

/-- Embedding of `VectorDBClient._endpoint_has_site`, as a function of the
cached site index for the endpoint (`none` models the unknown/unsupported
sentinel) and the requested site filter. -/
def _endpoint_has_site (endpoint_sites : Option (List String)) (site : SiteFilter) : Bool :=
  if site = SiteFilter.str ("all") then true
  else
    match endpoint_sites with
    | none => true
    | some sites =>
      if sites.isEmpty then false
      else (sitesToCheck site).any (fun s => sites.contains s)

/-- Embedding of the cache population of `VectorDBClient._get_endpoint_sites`,
as a function of the adapter call's outcome: a raised exception caches the
unknown sentinel; a returned `None` (the "unsupported" default) also ends
up cached as the sentinel, because the logging call `len(sites)` raises
`TypeError` on `None` and the handler overwrites the entry with `None`. -/
def _get_endpoint_sites (fetch : Except String (Option (List String))) : Option (List String) :=
  match fetch with
  | Except.error _ => none
  | Except.ok sites => sites

/-- The state built by `VectorDBClient.__init__` when construction
succeeds. -/
structure ClientState where
  enabled_endpoints : List (String × EndpointConfig)
  db_type : Option String
  write_endpoint : Option String

/-- The write-endpoint validation at the end of `VectorDBClient.__init__`:
when a write endpoint is configured (Python truthiness) it must be
registered and pass the credential check; otherwise only a warning is
logged. -/
def checkWriteEndpoint (retrieval_endpoints : List (String × EndpointConfig))
    (write_endpoint : Option String) (st : ClientState) : Except String ClientState :=
  if isTruthy write_endpoint then
    match write_endpoint with
    | some w =>
      (match alookup retrieval_endpoints w with
       | none => Except.error ("Write endpoint not found in configuration")
       | some write_config =>
         if _has_valid_credentials w write_config then
           Except.ok { st with write_endpoint := write_endpoint }
         else
           Except.error ("Write endpoint is missing required credentials"))
    | none => Except.ok { st with write_endpoint := write_endpoint }
  else
    Except.ok { st with write_endpoint := write_endpoint }

/-- Embedding of `VectorDBClient.__init__`: an explicitly requested
endpoint must be registered (its credentials are not checked); otherwise
all enabled endpoints with valid credentials are collected and at least one
must remain; finally the configured write endpoint, if any, is validated. -/
def initVectorDBClient (retrieval_endpoints : List (String × EndpointConfig))
    (config_write_endpoint : Option String) (endpoint_name : Option String) :
    Except String ClientState :=
  match endpoint_name with
  | some name =>
    (match alookup retrieval_endpoints name with
     | none => Except.error ("Invalid endpoint")
     | some endpoint_config =>
       checkWriteEndpoint retrieval_endpoints config_write_endpoint
         { enabled_endpoints := [(name, endpoint_config)]
           db_type := some endpoint_config.db_type
           write_endpoint := none })
  | none =>
    let enabled := retrieval_endpoints.filter
      (fun p => p.2.enabled && _has_valid_credentials p.1 p.2)
    if enabled.isEmpty then
      Except.error ("No enabled retrieval endpoints with valid credentials found")
    else
      checkWriteEndpoint retrieval_endpoints config_write_endpoint
        { enabled_endpoints := enabled
          db_type := (enabled.head?).map (fun p => p.2.db_type)
          write_endpoint := none }

/-- A Python value as it occurs in the relevance precheck's guard: the
operands of the `or` chain are booleans and a string literal. -/
inductive PyVal where
  | bool (b : Bool) : PyVal
  | str (s : String) : PyVal

/-- Python truthiness of such a value. -/
def pyTruthy : PyVal → Bool
  | PyVal.bool b => b
  | PyVal.str s => s ≠ ""

/-- Python's short-circuiting `or`: returns the left operand if it is
truthy, the right operand otherwise. -/
def pyOr (a b : PyVal) : PyVal := if pyTruthy a then a else b

/-- Embedding of the guard of `RelevanceDetection.do`:
`self.handler.site == 'all' or self.handler.site == 'nlws' or 'true'`,
with the trailing bare string literal `'true'`. -/
def relevanceGuard (site : String) : PyVal :=
  pyOr (PyVal.bool (site = "all")) (pyOr (PyVal.bool (site = "nlws")) (PyVal.str ("true")))

/-- Observable outcome of one run of `RelevanceDetection.do`. -/
structure RelevanceTrace where
  precheck_done : Bool
  prompt_run : Bool
deriving DecidableEq

/-- Embedding of `RelevanceDetection.do`: when the guard is truthy the
method marks the precheck step done and returns at once; only otherwise
would it run the relevance prompt (which is likewise followed by marking
the step done). -/
def relevanceDo (site : String) : RelevanceTrace :=
  if pyTruthy (relevanceGuard site) then
    { precheck_done := true, prompt_run := false }
  else
    { precheck_done := true, prompt_run := true }

/-- Folding `emitStep` over a stream of rows: the second pass of
`_aggregate_results` processes exactly such a stream (the round-robin
interleave of the per-endpoint iterators). -/
def foldEmit (url_to_data : List (String × UrlData)) :
    List Row → List String → List Row → List String × List Row
  | [], seen, acc => (seen, acc)
  | r :: rs, seen, acc =>
    let sa := emitStep url_to_data r seen acc
    foldEmit url_to_data rs sa.1 sa.2

/-- The `(endpoint, row)` pairs visited by pass 1, in visit order. -/
def pairsOf (endpoint_results : List (String × List Row)) : List (String × Row) :=
  concatAll (endpoint_results.map (fun p => p.2.map (fun r => (p.1, r))))

/-- The payload list recorded for a URL in a `url_to_data` dictionary
(empty when the URL is absent). -/
def jsonsAt (acc : List (String × UrlData)) (u : String) : List String :=
  match alookup acc u with
  | some d => d.json_list
  | none => []

/-- The URL under which pass 1 records a row: defined only for rows with
at least four elements. -/
def urlKeyOf (r : Row) : Option String :=
  match r with
  | url :: _ :: _ :: _ :: _ => some url
  | _ => none

theorem alookup_append {α : Type} (l1 l2 : List (String × α)) (u : String) :
    alookup (l1 ++ l2) u = match alookup l1 u with
      | some d => some d
      | none => alookup l2 u := by
  induction l1 with
  | nil => simp [alookup]
  | cons p rest ih =>
    obtain ⟨k, v⟩ := p
    by_cases h : k = u <;> simp [alookup, h, ih]

theorem alookup_append_single_ne {α : Type} (l : List (String × α)) (k u : String) (d : α)
    (h : k ≠ u) : alookup (l ++ [(k, d)]) u = alookup l u := by
  rw [alookup_append]
  cases hl : alookup l u <;> simp [alookup, h]

theorem alookup_append_single_self {α : Type} (l : List (String × α)) (u : String) (d : α)
    (h : alookup l u = none) : alookup (l ++ [(u, d)]) u = some d := by
  rw [alookup_append, h]
  simp [alookup]

theorem alookup_aupdate_ne {α : Type} (l : List (String × α)) (k u : String) (d : α)
    (h : k ≠ u) : alookup (aupdate l k d) u = alookup l u := by
  induction l with
  | nil => simp [aupdate]
  | cons p rest ih =>
    obtain ⟨k2, v⟩ := p
    by_cases h2 : k2 = k
    · subst h2
      simp [aupdate, alookup, h]
    · by_cases h3 : k2 = u
      · subst h3
        simp [aupdate, alookup, h2, Ne.symm h]
      · simp [aupdate, alookup, h2, h3, ih]

theorem alookup_aupdate_self {α : Type} (l : List (String × α)) (u : String) (d : α)
    (h : alookup l u ≠ none) : alookup (aupdate l u d) u = some d := by
  induction l with
  | nil => simp [alookup] at h
  | cons p rest ih =>
    obtain ⟨k2, v⟩ := p
    by_cases h2 : k2 = u
    · subst h2
      simp [aupdate, alookup]
    · simp [alookup, h2] at h
      simp [aupdate, alookup, h2, ih h]

theorem concatAll_mem {α : Type} (ls : List (List α)) (a : α) :
    a ∈ concatAll ls ↔ ∃ l ∈ ls, a ∈ l := by
  induction ls with
  | nil => simp [concatAll]
  | cons l rest ih => simp [concatAll, ih]

theorem foldl_rows_eq_pairs (e : String) (rows : List Row) (acc : List (String × UrlData)) :
    rows.foldl (fun a r => pass1Insert e r a) acc
      = (rows.map (fun r => (e, r))).foldl (fun a pr => pass1Insert pr.1 pr.2 a) acc := by
  induction rows generalizing acc with
  | nil => rfl
  | cons r rs ih => simp [List.foldl_cons, ih]

theorem pass1_eq_pairs_aux (m : List (String × List Row)) (acc : List (String × UrlData)) :
    m.foldl (fun acc p => p.2.foldl (fun a r => pass1Insert p.1 r a) acc) acc
      = (pairsOf m).foldl (fun a pr => pass1Insert pr.1 pr.2 a) acc := by
  induction m generalizing acc with
  | nil => rfl
  | cons p rest ih =>
    rw [List.foldl_cons, ih, foldl_rows_eq_pairs]
    simp [pairsOf, concatAll, List.foldl_append]

theorem pass1_eq_pairs (m : List (String × List Row)) :
    pass1 m = (pairsOf m).foldl (fun a pr => pass1Insert pr.1 pr.2 a) [] :=
  pass1_eq_pairs_aux m []

theorem pass1Insert_url (e : String) (r : Row) (acc : List (String × UrlData))
    (h : ∀ k d, alookup acc k = some d → d.url = k) :
    ∀ k d, alookup (pass1Insert e r acc) k = some d → d.url = k := by
  intro k d
  rcases r with _ | ⟨url, _ | ⟨j, _ | ⟨nm, _ | ⟨st, rest⟩⟩⟩⟩
  · exact h k d
  · exact h k d
  · exact h k d
  · exact h k d
  · simp only [pass1Insert]
    cases hl : alookup acc url with
    | none =>
      by_cases hk : url = k
      · subst hk
        rw [alookup_append_single_self acc url _ hl]
        intro hd
        cases hd
        rfl
      · rw [alookup_append_single_ne acc url k _ hk]
        exact h k d
    | some d0 =>
      by_cases hk : url = k
      · subst hk
        rw [alookup_aupdate_self acc url _ (by simp [hl])]
        intro hd
        cases hd
        exact h url d0 hl
      · rw [alookup_aupdate_ne acc url k _ hk]
        exact h k d

theorem foldPairs_url (ps : List (String × Row)) (acc : List (String × UrlData))
    (h : ∀ k d, alookup acc k = some d → d.url = k) :
    ∀ k d, alookup (ps.foldl (fun a pr => pass1Insert pr.1 pr.2 a) acc) k = some d → d.url = k := by
  induction ps generalizing acc with
  | nil => exact h
  | cons pr rest ih => exact ih _ (pass1Insert_url pr.1 pr.2 acc h)

theorem pass1_url (m : List (String × List Row)) (u : String) (d : UrlData)
    (h : alookup (pass1 m) u = some d) : d.url = u := by
  rw [pass1_eq_pairs] at h
  exact foldPairs_url (pairsOf m) [] (by intro k d2 hk; simp [alookup] at hk) u d h

theorem pass1Insert_presence (e : String) (r : Row) (acc : List (String × UrlData)) (u : String)
    (h : alookup acc u ≠ none) : alookup (pass1Insert e r acc) u ≠ none := by
  rcases r with _ | ⟨url, _ | ⟨j, _ | ⟨nm, _ | ⟨st, rest⟩⟩⟩⟩
  · exact h
  · exact h
  · exact h
  · exact h
  · simp only [pass1Insert]
    cases hl : alookup acc url with
    | none =>
      by_cases hk : url = u
      · subst hk
        rw [alookup_append_single_self acc url _ hl]
        simp
      · rw [alookup_append_single_ne acc url u _ hk]
        exact h
    | some d0 =>
      by_cases hk : url = u
      · subst hk
        rw [alookup_aupdate_self acc url _ (by simp [hl])]
        simp
      · rw [alookup_aupdate_ne acc url u _ hk]
        exact h

theorem pass1Insert_adds (e : String) (r : Row) (acc : List (String × UrlData)) (u : String)
    (h : urlKeyOf r = some u) : alookup (pass1Insert e r acc) u ≠ none := by
  rcases r with _ | ⟨url, _ | ⟨j, _ | ⟨nm, _ | ⟨st, rest⟩⟩⟩⟩ <;> simp [urlKeyOf] at h
  cases h
  simp only [pass1Insert]
  cases hl : alookup acc u with
  | none =>
    rw [alookup_append_single_self acc u _ hl]
    simp
  | some d0 =>
    rw [alookup_aupdate_self acc u _ (by simp [hl])]
    simp

theorem pass1Insert_other (e : String) (r : Row) (acc : List (String × UrlData)) (u : String)
    (h : urlKeyOf r ≠ some u) : alookup (pass1Insert e r acc) u = alookup acc u := by
  rcases r with _ | ⟨url, _ | ⟨j, _ | ⟨nm, _ | ⟨st, rest⟩⟩⟩⟩ <;> simp [pass1Insert, urlKeyOf] at h ⊢
  have hne : url ≠ u := h
  cases hl : alookup acc url with
  | none => exact alookup_append_single_ne acc url u _ hne
  | some d0 => exact alookup_aupdate_ne acc url u _ hne

theorem foldPairs_presence (ps : List (String × Row)) (acc : List (String × UrlData)) (u : String)
    (h : alookup acc u ≠ none) :
    alookup (ps.foldl (fun a pr => pass1Insert pr.1 pr.2 a) acc) u ≠ none := by
  induction ps generalizing acc with
  | nil => exact h
  | cons pr rest ih => exact ih _ (pass1Insert_presence pr.1 pr.2 acc u h)

theorem foldPairs_adds (ps : List (String × Row)) (u : String) (pr : String × Row)
    (h : urlKeyOf pr.2 = some u) :
    ∀ acc, pr ∈ ps → alookup (ps.foldl (fun a pr => pass1Insert pr.1 pr.2 a) acc) u ≠ none := by
  induction ps with
  | nil =>
    intro acc hmem
    cases hmem
  | cons q rest ih =>
    intro acc hmem
    rcases List.mem_cons.mp hmem with hq | hq
    · subst hq
      exact foldPairs_presence rest _ u (pass1Insert_adds pr.1 pr.2 acc u h)
    · exact ih _ hq

theorem foldPairs_none (ps : List (String × Row)) (u : String) :
    ∀ acc, (∀ pr ∈ ps, urlKeyOf pr.2 ≠ some u) → alookup acc u = none →
      alookup (ps.foldl (fun a pr => pass1Insert pr.1 pr.2 a) acc) u = none := by
  induction ps with
  | nil =>
    intro acc _ hacc
    exact hacc
  | cons q rest ih =>
    intro acc h hacc
    exact ih _ (fun pr hpr => h pr (List.mem_cons_of_mem q hpr))
      ((pass1Insert_other q.1 q.2 acc u (h q (List.mem_cons_self q rest))).trans hacc)

theorem pass1Insert_jsons (e : String) (r : Row) (acc : List (String × UrlData)) (u : String) :
    jsonsAt (pass1Insert e r acc) u = jsonsAt acc u ++ (rowPayloadFor u r).toList := by
  rcases r with _ | ⟨url, _ | ⟨j, _ | ⟨nm, _ | ⟨st, rest⟩⟩⟩⟩ <;>
    simp only [pass1Insert, rowPayloadFor, Option.toList_none, List.append_nil]
  cases hl : alookup acc url with
  | none =>
    by_cases hu : url = u
    · cases hu
      by_cases hj : j = "" <;>
        simp [jsonsAt, hl, alookup_append_single_self, hj]
    · simp [jsonsAt, alookup_append_single_ne acc url u _ hu, hu]
  | some d =>
    by_cases hu : url = u
    · cases hu
      by_cases hj : j = "" <;>
        simp [jsonsAt, hl, alookup_aupdate_self, hj]
    · simp [jsonsAt, alookup_aupdate_ne acc url u _ hu, hu]

theorem foldPairs_jsons (ps : List (String × Row)) (u : String) :
    ∀ acc, jsonsAt (ps.foldl (fun a pr => pass1Insert pr.1 pr.2 a) acc) u
      = jsonsAt acc u ++ ps.filterMap (fun pr => rowPayloadFor u pr.2) := by
  induction ps with
  | nil =>
    intro acc
    simp
  | cons q rest ih =>
    intro acc
    rw [List.foldl_cons, ih, pass1Insert_jsons]
    cases hq : rowPayloadFor u q.2 <;> simp [List.filterMap_cons, hq]

theorem pairsOf_map_snd (m : List (String × List Row)) :
    (pairsOf m).map Prod.snd = concatAll (m.map Prod.snd) := by
  induction m with
  | nil => rfl
  | cons p rest ih =>
    have h : pairsOf (p :: rest) = p.2.map (fun r => (p.1, r)) ++ pairsOf rest := rfl
    have h2 : concatAll ((p :: rest).map Prod.snd) = p.2 ++ concatAll (rest.map Prod.snd) := rfl
    rw [h, h2, List.map_append, ih, List.map_map]
    simp

theorem pass1_jsons (m : List (String × List Row)) (u : String) :
    jsonsAt (pass1 m) u = payloadsFor m u := by
  rw [pass1_eq_pairs, foldPairs_jsons]
  have h1 : jsonsAt [] u = [] := rfl
  rw [h1]
  have h2 : payloadsFor m u = ((pairsOf m).map Prod.snd).filterMap (rowPayloadFor u) := by
    rw [pairsOf_map_snd, payloadsFor]
  rw [h2, List.filterMap_map]
  rfl

theorem mem_pairsOf (m : List (String × List Row)) (pr : String × Row) :
    pr ∈ pairsOf m ↔ ∃ p ∈ m, pr.1 = p.1 ∧ pr.2 ∈ p.2 := by
  simp only [pairsOf, concatAll_mem, List.mem_map]
  constructor
  · rintro ⟨l, ⟨p, hp, rfl⟩, hpr⟩
    rcases List.mem_map.mp hpr with ⟨r, hr, rfl⟩
    exact ⟨p, hp, rfl, hr⟩
  · rintro ⟨p, hp, h1, h2⟩
    refine ⟨p.2.map (fun r => (p.1, r)), ⟨p, hp, rfl⟩, ?_⟩
    rcases pr with ⟨a, b⟩
    cases h1
    exact List.mem_map.mpr ⟨b, h2, rfl⟩

theorem pass1_presence_of_row (m : List (String × List Row)) (p : String × List Row)
    (hp : p ∈ m) (r : Row) (hr : r ∈ p.2) (u : String) (hk : urlKeyOf r = some u) :
    alookup (pass1 m) u ≠ none := by
  rw [pass1_eq_pairs]
  exact foldPairs_adds (pairsOf m) u (p.1, r) hk []
    ((mem_pairsOf m (p.1, r)).mpr ⟨p, hp, rfl, hr⟩)

theorem pass1_provenance (m : List (String × List Row)) (u : String) (d : UrlData)
    (h : alookup (pass1 m) u = some d) :
    ∃ p ∈ m, ∃ row ∈ p.2, urlKeyOf row = some u := by
  by_contra hc
  push_neg at hc
  have hnone : alookup (pass1 m) u = none := by
    rw [pass1_eq_pairs]
    refine foldPairs_none (pairsOf m) u [] ?_ rfl
    intro pr hpr
    rcases (mem_pairsOf m pr).mp hpr with ⟨p, hp, h1, h2⟩
    exact hc p hp pr.2 h2
  simp [hnone] at h

theorem processRound_fst (u : List (String × UrlData)) (iters : List (String × List Row)) :
    ∀ seen acc, (processRound u iters seen acc).1 = stepIters iters := by
  induction iters with
  | nil =>
    intro seen acc
    rfl
  | cons q rest ih =>
    intro seen acc
    rcases q with ⟨name, rows⟩
    cases rows with
    | nil => simp [processRound, stepIters, ih]
    | cons r rs => simp [processRound, stepIters, ih]

theorem processRound_snd (u : List (String × UrlData)) (iters : List (String × List Row)) :
    ∀ seen acc, (processRound u iters seen acc).2
      = foldEmit u ((iters.map Prod.snd).filterMap (fun l => l.head?)) seen acc := by
  induction iters with
  | nil =>
    intro seen acc
    rfl
  | cons q rest ih =>
    intro seen acc
    rcases q with ⟨name, rows⟩
    cases rows with
    | nil => simp [processRound, ih, List.filterMap_cons]
    | cons r rs =>
      simp only [processRound, Prod.mk.eta]
      rw [ih]
      rfl

theorem stepIters_map_snd (iters : List (String × List Row)) :
    (stepIters iters).map Prod.snd = (iters.map Prod.snd).filterMap (fun l => l.tail?) := by
  induction iters with
  | nil => rfl
  | cons q rest ih =>
    rcases q with ⟨name, rows⟩
    cases rows with
    | nil => simp [stepIters, ih, List.filterMap_cons, List.tail?]
    | cons r rs => simp [stepIters, ih, List.filterMap_cons, List.tail?]

theorem itersMeasure_cons (q : String × List Row) (rest : List (String × List Row)) :
    itersMeasure (q :: rest) = q.2.length + 1 + itersMeasure rest := by
  simp [itersMeasure, List.sum_cons]

theorem itersMeasure_stepIters_le (iters : List (String × List Row)) :
    itersMeasure (stepIters iters) ≤ itersMeasure iters := by
  induction iters with
  | nil => simp [stepIters]
  | cons q rest ih =>
    rcases q with ⟨name, rows⟩
    cases rows with
    | nil =>
      rw [show stepIters ((name, ([] : List Row)) :: rest) = stepIters rest from rfl,
        itersMeasure_cons]
      omega
    | cons r rs =>
      rw [show stepIters ((name, r :: rs) :: rest) = (name, rs) :: stepIters rest from rfl,
        itersMeasure_cons, itersMeasure_cons]
      simp only [List.length_cons]
      omega

theorem itersMeasure_stepIters_lt (iters : List (String × List Row)) (h : iters ≠ []) :
    itersMeasure (stepIters iters) < itersMeasure iters := by
  cases iters with
  | nil => cases h rfl
  | cons q rest =>
    rcases q with ⟨name, rows⟩
    have hle := itersMeasure_stepIters_le rest
    cases rows with
    | nil =>
      rw [show stepIters ((name, ([] : List Row)) :: rest) = stepIters rest from rfl,
        itersMeasure_cons]
      omega
    | cons r rs =>
      rw [show stepIters ((name, r :: rs) :: rest) = (name, rs) :: stepIters rest from rfl,
        itersMeasure_cons, itersMeasure_cons]
      simp only [List.length_cons]
      omega

theorem foldEmit_append (u : List (String × UrlData)) (xs ys : List Row) :
    ∀ seen acc, foldEmit u (xs ++ ys) seen acc
      = foldEmit u ys (foldEmit u xs seen acc).1 (foldEmit u xs seen acc).2 := by
  induction xs with
  | nil =>
    intro seen acc
    rfl
  | cons r rs ih =>
    intro seen acc
    simp only [List.cons_append, foldEmit]
    exact ih _ _

theorem tail_q_nil : ([] : List Row).tail? = none := rfl

theorem tail_q_cons (a : Row) (t : List Row) : (a :: t).tail? = some t := rfl

theorem head_q_nil : ([] : List Row).head? = none := rfl

theorem head_q_cons (a : Row) (t : List Row) : (a :: t).head? = some a := rfl

theorem sum_len_filterMap_tail_le (ls : List (List Row)) :
    ((ls.filterMap (fun l => l.tail?)).map List.length).sum ≤ (ls.map List.length).sum := by
  induction ls with
  | nil => simp
  | cons l rest ih =>
    cases l with
    | nil =>
      simp only [List.filterMap_cons, tail_q_nil, List.map_cons, List.sum_cons, List.length_nil]
      omega
    | cons a t =>
      simp only [List.filterMap_cons, tail_q_cons, List.map_cons, List.sum_cons, List.length_cons]
      omega

theorem sum_len_filterMap_tail_lt (ls : List (List Row))
    (h : ls.filterMap (fun l => l.head?) ≠ []) :
    ((ls.filterMap (fun l => l.tail?)).map List.length).sum < (ls.map List.length).sum := by
  induction ls with
  | nil => simp [List.filterMap_nil] at h
  | cons l rest ih =>
    cases l with
    | nil =>
      simp only [List.filterMap_cons, head_q_nil] at h
      simp only [List.filterMap_cons, tail_q_nil, List.map_cons, List.sum_cons, List.length_nil]
      have := ih h
      omega
    | cons a t =>
      simp only [List.filterMap_cons, tail_q_cons, List.map_cons, List.sum_cons, List.length_cons]
      have := sum_len_filterMap_tail_le rest
      omega

theorem roundRobinGo_fuel (f : Nat) :
    ∀ (g : Nat) (ls : List (List Row)), (ls.map List.length).sum < f →
      (ls.map List.length).sum < g → roundRobinGo f ls = roundRobinGo g ls := by
  induction f with
  | zero =>
    intro g ls h1 h2
    exact absurd h1 (Nat.not_lt_zero _)
  | succ f ih =>
    intro g ls h1 h2
    cases g with
    | zero => exact absurd h2 (Nat.not_lt_zero _)
    | succ g =>
      cases hh : ls.filterMap (fun l => l.head?) with
      | nil => simp only [roundRobinGo, hh]
      | cons h hs =>
        simp only [roundRobinGo, hh]
        congr 1
        have hlt := sum_len_filterMap_tail_lt ls (by rw [hh]; simp)
        exact ih g _ (by omega) (by omega)

theorem filterMap_head_nil_tail (ls : List (List Row))
    (h : ls.filterMap (fun l => l.head?) = []) : ls.filterMap (fun l => l.tail?) = [] := by
  induction ls with
  | nil => rfl
  | cons l rest ih =>
    cases l with
    | nil =>
      simp only [List.filterMap_cons, head_q_nil] at h
      simp only [List.filterMap_cons, tail_q_nil]
      exact ih h
    | cons a t => simp [List.filterMap_cons, head_q_cons] at h

theorem roundRobin_unfold (ls : List (List Row)) :
    roundRobin ls = (ls.filterMap (fun l => l.head?))
      ++ roundRobin (ls.filterMap (fun l => l.tail?)) := by
  unfold roundRobin
  cases hh : ls.filterMap (fun l => l.head?) with
  | nil =>
    rw [filterMap_head_nil_tail ls hh]
    simp only [roundRobinGo, hh]
    rfl
  | cons h hs =>
    simp only [roundRobinGo, hh]
    congr 1
    have hlt := sum_len_filterMap_tail_lt ls (by rw [hh]; simp)
    exact roundRobinGo_fuel ((ls.map List.length).sum)
      (((ls.filterMap (fun l => l.tail?)).map List.length).sum + 1)
      (ls.filterMap (fun l => l.tail?)) (by omega) (by omega)

theorem roundRobin_single (l : List Row) : roundRobin [l] = l := by
  induction l with
  | nil => rfl
  | cons a t ih =>
    rw [roundRobin_unfold]
    simp only [List.filterMap_cons, head_q_cons, tail_q_cons, List.filterMap_nil]
    simp [ih]

theorem filterMap_head_filter (ls : List (List Row)) :
    (ls.filter (fun l => !l.isEmpty)).filterMap (fun l => l.head?)
      = ls.filterMap (fun l => l.head?) := by
  induction ls with
  | nil => rfl
  | cons l rest ih =>
    cases l with
    | nil => simp only [List.filter_cons, List.filterMap_cons, head_q_nil, List.isEmpty_nil,
        Bool.not_true, Bool.false_eq_true, if_false, ih]
    | cons a t => simp only [List.filter_cons, List.filterMap_cons, head_q_cons,
        List.isEmpty_cons, Bool.not_false, if_true, ih]

theorem filterMap_tail_filter (ls : List (List Row)) :
    (ls.filter (fun l => !l.isEmpty)).filterMap (fun l => l.tail?)
      = ls.filterMap (fun l => l.tail?) := by
  induction ls with
  | nil => rfl
  | cons l rest ih =>
    cases l with
    | nil => simp only [List.filter_cons, List.filterMap_cons, tail_q_nil, List.isEmpty_nil,
        Bool.not_true, Bool.false_eq_true, if_false, ih]
    | cons a t => simp only [List.filter_cons, List.filterMap_cons, tail_q_cons,
        List.isEmpty_cons, Bool.not_false, if_true, ih]

theorem roundRobin_filter (ls : List (List Row)) :
    roundRobin (ls.filter (fun l => !l.isEmpty)) = roundRobin ls := by
  rw [roundRobin_unfold, roundRobin_unfold ls, filterMap_head_filter, filterMap_tail_filter]

theorem roundRobinGo_mem (f : Nat) :
    ∀ (ls : List (List Row)) (r : Row), r ∈ roundRobinGo f ls → ∃ l ∈ ls, r ∈ l := by
  induction f with
  | zero =>
    intro ls r h
    simp [roundRobinGo] at h
  | succ f ih =>
    intro ls r h
    cases hh : ls.filterMap (fun l => l.head?) with
    | nil =>
      simp only [roundRobinGo, hh] at h
      simp at h
    | cons hd hs =>
      simp only [roundRobinGo, hh] at h
      rcases List.mem_append.mp h with h1 | h2
      · rw [← hh] at h1
        rcases List.mem_filterMap.mp h1 with ⟨l, hl, hhead⟩
        cases l with
        | nil => simp [head_q_nil] at hhead
        | cons a t =>
          rw [head_q_cons] at hhead
          cases hhead
          exact ⟨r :: t, hl, by simp⟩
      · rcases ih _ r h2 with ⟨l2, hl2, hr⟩
        rcases List.mem_filterMap.mp hl2 with ⟨l, hl, htail⟩
        cases l with
        | nil => simp [tail_q_nil] at htail
        | cons a t =>
          rw [tail_q_cons] at htail
          cases htail
          exact ⟨a :: l2, hl, by simp [hr]⟩

theorem roundRobin_mem (ls : List (List Row)) (r : Row) (h : r ∈ roundRobin ls) :
    ∃ l ∈ ls, r ∈ l :=
  roundRobinGo_mem _ ls r h

theorem map_snd_filter_isEmpty (m : List (String × List Row)) :
    (m.filter (fun p => !p.2.isEmpty)).map Prod.snd = (m.map Prod.snd).filter (fun l => !l.isEmpty) := by
  induction m with
  | nil => rfl
  | cons p rest ih =>
    by_cases hp : p.2.isEmpty <;> simp [List.filter_cons, hp, ih]

theorem interleaveGo_spec (u : List (String × UrlData)) (f : Nat) :
    ∀ (iters : List (String × List Row)) (seen : List String) (acc : List Row),
      itersMeasure iters < f →
      interleaveGo u f iters seen acc
        = (foldEmit u (roundRobin (iters.map Prod.snd)) seen acc).2 := by
  induction f with
  | zero =>
    intro iters seen acc h
    exact absurd h (Nat.not_lt_zero _)
  | succ f ih =>
    intro iters seen acc h
    by_cases hne : iters = []
    · subst hne
      rfl
    · have hie : iters.isEmpty = false := by
        cases iters
        · cases hne rfl
        · rfl
      have hstep : interleaveGo u (f + 1) iters seen acc
          = interleaveGo u f (processRound u iters seen acc).1
              (processRound u iters seen acc).2.1 (processRound u iters seen acc).2.2 := by
        simp [interleaveGo, hie]
      rw [hstep, processRound_fst, processRound_snd]
      have hlt : itersMeasure (stepIters iters) < f := by
        have h1 := itersMeasure_stepIters_lt iters hne
        omega
      rw [ih _ _ _ hlt, stepIters_map_snd]
      rw [roundRobin_unfold (iters.map Prod.snd), foldEmit_append]

theorem aggregate_eq_foldEmit (m : List (String × List Row)) :
    _aggregate_results m = (foldEmit (pass1 m) (roundRobin (m.map Prod.snd)) [] []).2 := by
  unfold _aggregate_results interleaveLoop
  rw [interleaveGo_spec _ _ _ _ _ (Nat.lt_succ_self _)]
  rw [map_snd_filter_isEmpty, roundRobin_filter]

theorem mergedPayload_single (j : String) : mergedPayload [j] = j := by
  simp [mergedPayload]

theorem foldEmit_urls (u : List (String × UrlData)) (rows : List Row) :
    ∀ (seen : List String) (acc : List Row),
      (∀ r ∈ rows, r ≠ [] ∧ urlOf r ≠ "" ∧ ∃ d, alookup u (urlOf r) = some d ∧ d.url = urlOf r) →
      ((foldEmit u rows seen acc).2).map urlOf
        = acc.map urlOf ++ specFirstEncounters seen (rows.map urlOf) := by
  induction rows with
  | nil =>
    intro seen acc h
    simp [foldEmit, specFirstEncounters]
  | cons r rs ih =>
    intro seen acc h
    obtain ⟨hne, hu, d, hd, hdu⟩ := h r (List.mem_cons_self r rs)
    have hrest : ∀ r2 ∈ rs, r2 ≠ [] ∧ urlOf r2 ≠ ""
        ∧ ∃ d2, alookup u (urlOf r2) = some d2 ∧ d2.url = urlOf r2 :=
      fun r2 hr2 => h r2 (List.mem_cons_of_mem r hr2)
    cases r with
    | nil => cases hne rfl
    | cons url tail =>
      have hurl : urlOf (url :: tail) = url := rfl
      rw [hurl] at hu hd hdu
      have hf : foldEmit u ((url :: tail) :: rs) seen acc
          = foldEmit u rs (emitStep u (url :: tail) seen acc).1
              (emitStep u (url :: tail) seen acc).2 := rfl
      by_cases hseen : url ∈ seen
      · have he : emitStep u (url :: tail) seen acc = (seen, acc) := by
          simp [emitStep, hseen]
        rw [hf, he, ih seen acc hrest]
        have hspec : specFirstEncounters seen (((url :: tail) :: rs).map urlOf)
            = specFirstEncounters seen (rs.map urlOf) := by
          simp [List.map_cons, hurl, specFirstEncounters, hseen]
        rw [hspec]
      · have he : emitStep u (url :: tail) seen acc
            = (url :: seen, acc ++ [[d.url, mergedPayload d.json_list, d.name, d.site]]) := by
          simp [emitStep, hu, hseen, hd]
        rw [hf, he, ih (url :: seen) _ hrest]
        have h1 : (acc ++ [[d.url, mergedPayload d.json_list, d.name, d.site]]).map urlOf
            = acc.map urlOf ++ [url] := by
          simp [List.map_append, urlOf, hdu]
        have h2 : specFirstEncounters seen (((url :: tail) :: rs).map urlOf)
            = url :: specFirstEncounters (url :: seen) (rs.map urlOf) := by
          simp [List.map_cons, hurl, specFirstEncounters, hseen]
        rw [h1, h2]
        simp

theorem specFE_not_mem (xs : List String) :
    ∀ (seen : List String) (v : String), v ∈ specFirstEncounters seen xs → v ∉ seen := by
  induction xs with
  | nil =>
    intro seen v hv
    simp [specFirstEncounters] at hv
  | cons x rest ih =>
    intro seen v hv
    by_cases hx : x ∈ seen
    · simp only [specFirstEncounters, if_pos hx] at hv
      exact ih seen v hv
    · simp only [specFirstEncounters, if_neg hx] at hv
      rcases List.mem_cons.mp hv with h1 | h2
      · subst h1
        exact hx
      · intro hvs
        exact (ih (x :: seen) v h2) (List.mem_cons_of_mem x hvs)

theorem specFE_nodup (xs : List String) :
    ∀ seen : List String, (specFirstEncounters seen xs).Nodup := by
  induction xs with
  | nil =>
    intro seen
    simp [specFirstEncounters]
  | cons x rest ih =>
    intro seen
    by_cases hx : x ∈ seen
    · simp only [specFirstEncounters, if_pos hx]
      exact ih seen
    · simp only [specFirstEncounters, if_neg hx]
      refine List.nodup_cons.mpr ⟨?_, ih (x :: seen)⟩
      intro hmem
      exact specFE_not_mem rest (x :: seen) x hmem (List.mem_cons_self x seen)

theorem foldEmit_mem (u : List (String × UrlData)) (rows : List Row) :
    ∀ (seen : List String) (acc : List Row) (r : Row), r ∈ (foldEmit u rows seen acc).2 →
      r ∈ acc ∨ ∃ url d, alookup u url = some d
        ∧ r = [d.url, mergedPayload d.json_list, d.name, d.site] := by
  induction rows with
  | nil =>
    intro seen acc r hr
    exact Or.inl hr
  | cons row rs ih =>
    intro seen acc r hr
    have hf : foldEmit u (row :: rs) seen acc
        = foldEmit u rs (emitStep u row seen acc).1 (emitStep u row seen acc).2 := rfl
    rw [hf] at hr
    rcases ih _ _ r hr with hin | hfound
    · cases row with
      | nil => exact Or.inl hin
      | cons url tail =>
        by_cases hcond : url ≠ "" ∧ url ∉ seen
        · cases hl : alookup u url with
          | none =>
            rw [show (emitStep u (url :: tail) seen acc).2 = acc from by
              simp [emitStep, hcond.1, hcond.2, hl]] at hin
            exact Or.inl hin
          | some d =>
            rw [show (emitStep u (url :: tail) seen acc).2
                = acc ++ [[d.url, mergedPayload d.json_list, d.name, d.site]] from by
              simp [emitStep, hcond.1, hcond.2, hl]] at hin
            rcases List.mem_append.mp hin with h1 | h2
            · exact Or.inl h1
            · refine Or.inr ⟨url, d, hl, ?_⟩
              simpa using h2
        · rw [show (emitStep u (url :: tail) seen acc).2 = acc from by
            simp only [emitStep, if_neg hcond]] at hin
          exact Or.inl hin
    · exact Or.inr hfound

theorem foldEmit_id (u : List (String × UrlData)) (rows : List Row) :
    ∀ (seen : List String) (acc : List Row),
      (∀ r ∈ rows, ∃ url j nm st, r = [url, j, nm, st] ∧ url ≠ "" ∧ url ∉ seen
        ∧ ∃ d, alookup u url = some d ∧ d.url = url ∧ d.json_list = [j]
            ∧ d.name = nm ∧ d.site = st) →
      (rows.map urlOf).Nodup →
      (foldEmit u rows seen acc).2 = acc ++ rows := by
  induction rows with
  | nil =>
    intro seen acc h hnd
    simp [foldEmit]
  | cons r rs ih =>
    intro seen acc h hnd
    obtain ⟨url, j, nm, st, rfl, hne, hnseen, d, hd, hdu, hdj, hdn, hds⟩ :=
      h _ (List.mem_cons_self _ rs)
    have hurl : urlOf [url, j, nm, st] = url := rfl
    have he : emitStep u [url, j, nm, st] seen acc = (url :: seen, acc ++ [[url, j, nm, st]]) := by
      simp [emitStep, hne, hnseen, hd, hdu, hdj, hdn, hds, mergedPayload_single]
    have hf : foldEmit u ([url, j, nm, st] :: rs) seen acc
        = foldEmit u rs (emitStep u [url, j, nm, st] seen acc).1
            (emitStep u [url, j, nm, st] seen acc).2 := rfl
    rw [hf, he]
    have hnd2 : (rs.map urlOf).Nodup := by
      rw [List.map_cons] at hnd
      exact (List.nodup_cons.mp hnd).2
    have hnotin : url ∉ rs.map urlOf := by
      rw [List.map_cons, hurl] at hnd
      exact (List.nodup_cons.mp hnd).1
    have hrest : ∀ r2 ∈ rs, ∃ url2 j2 nm2 st2, r2 = [url2, j2, nm2, st2] ∧ url2 ≠ ""
        ∧ url2 ∉ url :: seen ∧ ∃ d2, alookup u url2 = some d2 ∧ d2.url = url2
          ∧ d2.json_list = [j2] ∧ d2.name = nm2 ∧ d2.site = st2 := by
      intro r2 hr2
      obtain ⟨url2, j2, nm2, st2, hr2eq, hne2, hns2, rest2⟩ := h r2 (List.mem_cons_of_mem _ hr2)
      refine ⟨url2, j2, nm2, st2, hr2eq, hne2, ?_, rest2⟩
      intro hmem
      rcases List.mem_cons.mp hmem with h1 | h2
      · subst h1
        exact hnotin (List.mem_map.mpr ⟨r2, hr2, by rw [hr2eq]; rfl⟩)
      · exact hns2 h2
    rw [ih (url :: seen) (acc ++ [[url, j, nm, st]]) hrest hnd2]
    simp

/-- C9: for every handler state (any value of `handler.site`), the
relevance precheck's `do()` takes the short-circuit branch — it marks the
precheck step done and returns without running the relevance prompt,
because the guard `site == 'all' or site == 'nlws' or 'true'` ends in the
always-truthy string literal `'true'` and is therefore always truthy: the
check is effectively disabled. -/
theorem C9_relevance_precheck_disabled :
    ∀ site : String, relevanceDo site = { precheck_done := true, prompt_run := false }
      ∧ pyTruthy (relevanceGuard site) = true := by
  intro site
  constructor
  · by_cases h1 : site = "all" <;> by_cases h2 : site = "nlws" <;>
      simp [relevanceDo, relevanceGuard, pyOr, pyTruthy, h1, h2]
  · by_cases h1 : site = "all" <;> by_cases h2 : site = "nlws" <;>
      simp [relevanceGuard, pyOr, pyTruthy, h1, h2]

/-- C3: endpoint usability is a pure function of the backend kind and the
presence of credential fields, following exactly the table: the managed
search service and the managed cortex-search kinds need API key and API
endpoint; the self-hosted search engine kind needs API endpoint and API
key; the local-or-remote kind needs a local path or an API endpoint; the
local-only kind needs a local path; any other kind is never usable. -/
theorem C3_classify_usable_table :
    ∀ (name : String) (config : EndpointConfig),
      ((config.db_type = "azure_ai_search" ∨ config.db_type = "snowflake_cortex_search") →
        _has_valid_credentials name config
          = (isTruthy config.api_key && isTruthy config.api_endpoint))
      ∧ (config.db_type = "opensearch" →
        _has_valid_credentials name config
          = (isTruthy config.api_endpoint && isTruthy config.api_key))
      ∧ (config.db_type = "qdrant" →
        _has_valid_credentials name config
          = (isTruthy config.database_path || isTruthy config.api_endpoint))
      ∧ (config.db_type = "milvus" →
        _has_valid_credentials name config = isTruthy config.database_path)
      ∧ (config.db_type ≠ "azure_ai_search" → config.db_type ≠ "snowflake_cortex_search" →
          config.db_type ≠ "opensearch" → config.db_type ≠ "qdrant" →
          config.db_type ≠ "milvus" →
        _has_valid_credentials name config = false) := by
  intro name config
  refine ⟨?_, ?_, ?_, ?_, ?_⟩
  · intro h
    rcases h with h | h <;> simp [_has_valid_credentials, h]
  · intro h
    simp [_has_valid_credentials, h]
  · intro h
    simp only [_has_valid_credentials, h]
    by_cases hp : isTruthy config.database_path = true <;> simp [hp]
  · intro h
    simp [_has_valid_credentials, h]
  · intro h1 h2 h3 h4 h5
    simp [_has_valid_credentials, h1, h2, h3, h4, h5]

/-- Witness for C3 at concrete endpoint configurations, one per branch of
the table. -/
theorem C3_witness :
    _has_valid_credentials ("e1")
      { db_type := "azure_ai_search", enabled := true, api_key := some ("k"),
        api_endpoint := some ("https://x"), database_path := none } = true
    ∧ _has_valid_credentials ("e2")
      { db_type := "qdrant", enabled := true, api_key := none,
        api_endpoint := none, database_path := some ("/data") } = true
    ∧ _has_valid_credentials ("e3")
      { db_type := "milvus", enabled := true, api_key := some ("k"),
        api_endpoint := some ("https://x"), database_path := none } = false
    ∧ _has_valid_credentials ("e4")
      { db_type := "mystery_db", enabled := true, api_key := some ("k"),
        api_endpoint := some ("https://x"), database_path := some ("/data") } = false := by
  refine ⟨?_, ?_, ?_, ?_⟩
  · rw [(C3_classify_usable_table ("e1") _).1 (Or.inl rfl)]
    rfl
  · rw [(C3_classify_usable_table ("e2") _).2.2.1 rfl]
    rfl
  · rw [(C3_classify_usable_table ("e3") _).2.2.2.1 rfl]
    rfl
  · exact (C3_classify_usable_table ("e4") _).2.2.2.2
      (by decide) (by decide) (by decide) (by decide) (by decide)

/-- C6: with no write endpoint configured, `upload_documents` and
`delete_documents_by_site` fail with the configuration error and never
touch an adapter (the outcome does not depend on the adapter at all); with
a write endpoint configured, each call delegates to exactly that endpoint's
adapter and the adapter's outcome — success or failure — propagates
unchanged. -/
theorem C6_write_isolation :
    ∀ (adapterD adapterD2 : String → String → Except String Nat)
      (adapterU adapterU2 : String → List String → Except String Nat)
      (site : String) (documents : List String) (w : String),
      delete_documents_by_site none adapterD site
        = Except.error ("No write endpoint configured for delete operations")
      ∧ delete_documents_by_site none adapterD site
        = delete_documents_by_site none adapterD2 site
      ∧ (w ≠ "" → delete_documents_by_site (some w) adapterD site = adapterD w site)
      ∧ upload_documents none adapterU documents
        = Except.error ("No write endpoint configured for upload operations")
      ∧ upload_documents none adapterU documents = upload_documents none adapterU2 documents
      ∧ (w ≠ "" → upload_documents (some w) adapterU documents = adapterU w documents) := by
  intro aD aD2 aU aU2 site docs w
  refine ⟨rfl, rfl, ?_, rfl, rfl, ?_⟩
  · intro hw
    simp [delete_documents_by_site, isTruthy, hw]
  · intro hw
    simp [upload_documents, isTruthy, hw]

/-- Witness for C6: a failing delete adapter propagates its error; an
upload succeeds through the configured write endpoint. -/
theorem C6_witness :
    delete_documents_by_site (some ("ep")) (fun _ _ => Except.error ("boom")) ("siteA")
      = Except.error ("boom")
    ∧ upload_documents (some ("ep")) (fun _ _ => Except.ok 7) [] = Except.ok 7 := by
  constructor
  · exact (C6_write_isolation (fun _ _ => Except.error ("boom"))
      (fun _ _ => Except.error ("boom")) (fun _ _ => Except.ok 7) (fun _ _ => Except.ok 7)
      ("siteA") [] ("ep")).2.2.1 (by decide)
  · exact (C6_write_isolation (fun _ _ => Except.error ("boom"))
      (fun _ _ => Except.error ("boom")) (fun _ _ => Except.ok 7) (fun _ _ => Except.ok 7)
      ("siteA") [] ("ep")).2.2.2.2.2 (by decide)

/-- C5: the site-eligibility check answers true whenever the cached site
index is the unknown sentinel (cached when the site-listing call fails or
returns the unsupported value); the literal "all" wildcard always answers
true; an explicit empty cached set answers false for every other filter;
and otherwise a single- or multi-identifier filter answers true iff some
requested identifier is in the cached set (so a cached set of only siteX
rejects siteY and accepts siteX or the wildcard). -/
theorem C5_site_eligibility :
    ∀ (cached : Option (List String)) (site : SiteFilter) (e : String) (l : List String),
      (cached = none → _endpoint_has_site cached site = true)
      ∧ (site = SiteFilter.str ("all") → _endpoint_has_site cached site = true)
      ∧ (cached = some [] → site ≠ SiteFilter.str ("all") →
          _endpoint_has_site cached site = false)
      ∧ (cached = some l → l ≠ [] → site ≠ SiteFilter.str ("all") →
          (_endpoint_has_site cached site = true ↔ ∃ s ∈ sitesToCheck site, s ∈ l))
      ∧ _get_endpoint_sites (Except.error e) = none
      ∧ _get_endpoint_sites (Except.ok none) = none
      ∧ _endpoint_has_site (some [("siteX")]) (SiteFilter.str ("siteY")) = false
      ∧ _endpoint_has_site (some [("siteX")]) (SiteFilter.str ("siteX")) = true
      ∧ _endpoint_has_site (some [("siteX")]) (SiteFilter.str ("all")) = true := by
  intro cached site e l
  refine ⟨?_, ?_, ?_, ?_, rfl, rfl, by decide, by decide, by decide⟩
  · intro h
    subst h
    by_cases hs : site = SiteFilter.str ("all") <;> simp [_endpoint_has_site, hs]
  · intro h
    simp [_endpoint_has_site, h]
  · intro h hs
    subst h
    simp [_endpoint_has_site, hs]
  · intro h hl hs
    subst h
    have hemp : l.isEmpty = false := by
      cases l
      · cases hl rfl
      · rfl
    simp [_endpoint_has_site, hs, hemp, List.any_eq_true]

/-- Witness for C5: the unknown sentinel accepts any filter; the empty
cached set rejects a concrete filter; a multi-identifier filter matches on
intersection. -/
theorem C5_witness :
    _endpoint_has_site none (SiteFilter.str ("siteZ")) = true
    ∧ _endpoint_has_site (some []) (SiteFilter.str ("siteZ")) = false
    ∧ (_endpoint_has_site (some [("s1"), ("s2")]) (SiteFilter.list [("s0"), ("s2")]) = true
        ↔ ∃ s ∈ sitesToCheck (SiteFilter.list [("s0"), ("s2")]), s ∈ [("s1"), ("s2")]) := by
  refine ⟨?_, ?_, ?_⟩
  · exact (C5_site_eligibility none (SiteFilter.str ("siteZ")) ("") []).1 rfl
  · exact (C5_site_eligibility (some []) (SiteFilter.str ("siteZ")) ("") []).2.2.1 rfl
      (by decide)
  · exact (C5_site_eligibility (some [("s1"), ("s2")]) (SiteFilter.list [("s0"), ("s2")])
      ("") [("s1"), ("s2")]).2.2.2.1 rfl (by decide) (by decide)

/-- C2: in the result-collection phase of a multi-endpoint search, zero
dispatched queries fail the call with the no-eligible-endpoints error; all
dispatched queries failing fails the call with the all-backends-failed
error; and at least one success yields the merged (and truncated)
aggregation of exactly the successful endpoints' result lists, with every
failing endpoint excluded and its error not propagated. -/
theorem C2_search_failure_semantics :
    ∀ (outcomes : List (String × Except String (List Row))) (num_results : Nat),
      (outcomes = [] →
        search outcomes num_results = Except.error ("No valid endpoints available for search"))
      ∧ (outcomes ≠ [] → (∀ p ∈ outcomes, ∃ e, p.2 = Except.error e) →
        search outcomes num_results = Except.error ("All endpoint searches failed"))
      ∧ ((∃ p ∈ outcomes, ∃ r, p.2 = Except.ok r) →
        search outcomes num_results
          = Except.ok ((_aggregate_results (outcomes.filterMap (fun p =>
              match p.2 with
              | Except.ok r => some (p.1, r)
              | Except.error _ => none))).take num_results)) := by
  intro outcomes n
  refine ⟨?_, ?_, ?_⟩
  · intro h
    subst h
    rfl
  · intro hne hall
    have h1 : outcomes.isEmpty = false := by
      cases outcomes
      · cases hne rfl
      · rfl
    have h2 : outcomes.filterMap (fun p =>
        match p.2 with
        | Except.ok r => some (p.1, r)
        | Except.error _ => none) = [] := by
      refine List.filterMap_eq_nil_iff.mpr ?_
      intro p hp
      obtain ⟨e2, he⟩ := hall p hp
      simp [he]
    simp [search, h1, h2]
  · intro hex
    obtain ⟨p, hp, r, hr⟩ := hex
    have h1 : outcomes.isEmpty = false := by
      cases outcomes
      · simp at hp
      · rfl
    have h2 : outcomes.filterMap (fun p =>
        match p.2 with
        | Except.ok r => some (p.1, r)
        | Except.error _ => none) ≠ [] := by
      intro hnil
      have hnone := List.filterMap_eq_nil_iff.mp hnil p hp
      rw [hr] at hnone
      simp at hnone
    have h3 : (outcomes.filterMap (fun p =>
        match p.2 with
        | Except.ok r => some (p.1, r)
        | Except.error _ => none)).isEmpty = false := by
      cases hfm : outcomes.filterMap (fun p =>
        match p.2 with
        | Except.ok r => some (p.1, r)
        | Except.error _ => none)
      · exact absurd hfm h2
      · rfl
    simp [search, h1, h3]

/-- Witness for C2: zero dispatched endpoints, all-fail, and one-success
scenarios at concrete outcomes. -/
theorem C2_witness :
    search [] 5 = Except.error ("No valid endpoints available for search")
    ∧ search [(("A"), Except.error ("boom"))] 5
        = Except.error ("All endpoint searches failed")
    ∧ search [(("A"), Except.error ("boom")),
        (("B"), Except.ok [[("u1"), ("p1"), ("n1"), ("s1")]])] 5
        = Except.ok [[("u1"), ("p1"), ("n1"), ("s1")]] := by
  refine ⟨?_, ?_, ?_⟩
  · exact (C2_search_failure_semantics [] 5).1 rfl
  · refine (C2_search_failure_semantics [(("A"), Except.error ("boom"))] 5).2.1
      (by simp) ?_
    intro p hp
    rw [List.mem_singleton.mp hp]
    exact ⟨("boom"), rfl⟩
  · have h := (C2_search_failure_semantics [(("A"), Except.error ("boom")),
      (("B"), Except.ok [[("u1"), ("p1"), ("n1"), ("s1")]])] 5).2.2
      ⟨(("B"), Except.ok [[("u1"), ("p1"), ("n1"), ("s1")]]), by simp,
        [[("u1"), ("p1"), ("n1"), ("s1")]], rfl⟩
    rw [h]
    rfl

theorem checkWrite_error_iff (eps : List (String × EndpointConfig)) (write : Option String)
    (st : ClientState) :
    (∃ e, checkWriteEndpoint eps write st = Except.error e)
      ↔ ∃ w, write = some w ∧ w ≠ ""
          ∧ ¬ ∃ cfg, alookup eps w = some cfg ∧ _has_valid_credentials w cfg = true := by
  cases write with
  | none => simp [checkWriteEndpoint, isTruthy]
  | some w =>
    by_cases hw : w = ""
    · subst hw
      simp [checkWriteEndpoint, isTruthy]
    · have ht : isTruthy (some w) = true := by simp [isTruthy, hw]
      cases hl : alookup eps w with
      | none => simp [checkWriteEndpoint, ht, hl, hw]
      | some cfg =>
        by_cases hv : _has_valid_credentials w cfg = true <;>
          simp [checkWriteEndpoint, ht, hl, hv, hw]

/-- C7: construction of the client fails exactly when an explicitly
requested endpoint name is unregistered, or (in use-all-enabled-endpoints
mode) no enabled endpoint passes the credential check, or a configured
write endpoint is unregistered or fails the credential check; in
particular, having no write endpoint configured is not fatal. -/
theorem C7_construction_failure_iff :
    ∀ (retrieval_endpoints : List (String × EndpointConfig))
      (config_write_endpoint : Option String) (endpoint_name : Option String),
      (∃ e, initVectorDBClient retrieval_endpoints config_write_endpoint endpoint_name
          = Except.error e)
        ↔ ((∃ n, endpoint_name = some n ∧ alookup retrieval_endpoints n = none)
          ∨ (endpoint_name = none
              ∧ retrieval_endpoints.filter
                  (fun p => p.2.enabled && _has_valid_credentials p.1 p.2) = [])
          ∨ (∃ w, config_write_endpoint = some w ∧ w ≠ ""
              ∧ ¬ ∃ cfg, alookup retrieval_endpoints w = some cfg
                  ∧ _has_valid_credentials w cfg = true)) := by
  intro eps write req
  cases req with
  | some name =>
    cases hl : alookup eps name with
    | none =>
      constructor
      · intro _
        exact Or.inl ⟨name, rfl, hl⟩
      · intro _
        exact ⟨("Invalid endpoint"), by simp [initVectorDBClient, hl]⟩
    | some cfg =>
      have hinit : initVectorDBClient eps write (some name)
          = checkWriteEndpoint eps write
              { enabled_endpoints := [(name, cfg)]
                db_type := some cfg.db_type
                write_endpoint := none } := by
        simp [initVectorDBClient, hl]
      rw [hinit, checkWrite_error_iff]
      constructor
      · intro h
        exact Or.inr (Or.inr h)
      · rintro (⟨n, hn, hln⟩ | ⟨h1, _⟩ | h3)
        · injection hn with hn2
          subst hn2
          rw [hl] at hln
          cases hln
        · cases h1
        · exact h3
  | none =>
    by_cases hemp : eps.filter (fun p => p.2.enabled && _has_valid_credentials p.1 p.2) = []
    · have hinit : initVectorDBClient eps write none
          = Except.error ("No enabled retrieval endpoints with valid credentials found") := by
        simp [initVectorDBClient, hemp]
      rw [hinit]
      constructor
      · intro _
        exact Or.inr (Or.inl ⟨rfl, hemp⟩)
      · intro _
        exact ⟨_, rfl⟩
    · have hie : (eps.filter (fun p => p.2.enabled && _has_valid_credentials p.1 p.2)).isEmpty
          = false := by
        cases hf : eps.filter (fun p => p.2.enabled && _has_valid_credentials p.1 p.2)
        · exact absurd hf hemp
        · rfl
      have hinit : initVectorDBClient eps write none
          = checkWriteEndpoint eps write
              { enabled_endpoints :=
                  eps.filter (fun p => p.2.enabled && _has_valid_credentials p.1 p.2)
                db_type :=
                  ((eps.filter (fun p => p.2.enabled && _has_valid_credentials p.1 p.2)).head?).map
                    (fun p => p.2.db_type)
                write_endpoint := none } := by
        simp [initVectorDBClient, hie]
      rw [hinit, checkWrite_error_iff]
      constructor
      · intro h
        exact Or.inr (Or.inr h)
      · rintro (⟨n, hn, _⟩ | ⟨_, h2⟩ | h3)
        · cases hn
        · exact absurd h2 hemp
        · exact h3

theorem row_shape_of_len (r : Row) (h : 4 ≤ r.length) :
    ∃ u j nm st rest, r = u :: j :: nm :: st :: rest := by
  rcases r with _ | ⟨a, _ | ⟨b, _ | ⟨c, _ | ⟨d, rest⟩⟩⟩⟩
  · simp at h
  · simp at h
  · simp at h
  · simp at h
  · exact ⟨a, b, c, d, rest, rfl⟩

/-- C10: every row of the aggregated output is a 4-element record whose
URL comes from some input row with at least four elements; hence rows with
fewer than four elements are never themselves recorded and can only
surface through a well-formed row with the same URL. -/
theorem C10_output_rows_wellformed :
    ∀ (m : List (String × List Row)) (r : Row), r ∈ _aggregate_results m →
      r.length = 4 ∧ ∃ p ∈ m, ∃ row ∈ p.2, 4 ≤ row.length ∧ row.head? = some (urlOf r) := by
  intro m r hr
  rw [aggregate_eq_foldEmit] at hr
  rcases foldEmit_mem (pass1 m) _ [] [] r hr with hin | ⟨url, d, hl, hreq⟩
  · simp at hin
  · have hdu : d.url = url := pass1_url m url d hl
    subst hreq
    refine ⟨rfl, ?_⟩
    obtain ⟨p, hp, row, hrow, hk⟩ := pass1_provenance m url d hl
    rcases row with _ | ⟨a, _ | ⟨b, _ | ⟨c, _ | ⟨dd, rest⟩⟩⟩⟩ <;> simp [urlKeyOf] at hk
    subst hk
    refine ⟨p, hp, _, hrow, by simp, ?_⟩
    simp [urlOf, hdu]

/-- Witness for C10: a malformed one-element row's URL surfaces only via
the well-formed row contributed by the other endpoint, and the output row
has exactly four fields. -/
theorem C10_witness :
    ([("u"), ("p"), ("n"), ("s")] : Row).length = 4
    ∧ ∃ p ∈ [(("A"), [[("u")]]), (("B"), [[("u"), ("p"), ("n"), ("s")]])], ∃ row ∈ p.2,
        4 ≤ row.length ∧ row.head? = some (urlOf [("u"), ("p"), ("n"), ("s")]) :=
  C10_output_rows_wellformed [(("A"), [[("u")]]), (("B"), [[("u"), ("p"), ("n"), ("s")]])]
    [("u"), ("p"), ("n"), ("s")] (by decide)

/-- C4 (amended): every aggregated row carries, for its URL, the merge of
the ordered list of non-empty payloads collected for that URL across all
endpoints: no collected payload yields the empty-object string, exactly one
collected payload (one contributing row with a truthy payload) is kept
unchanged, and two or more collected payloads — even from a single
endpoint — are deep-merged (spec-modelled array/object union) and
re-serialized; in particular the two-endpoint example with payloads
containing keys a and b merges into one record whose combined payload
contains both keys. -/
theorem C4_payload_merge_policy :
    (∀ (m : List (String × List Row)) (r : Row), r ∈ _aggregate_results m →
      ∃ nm st, r = [urlOf r, mergedPayload (payloadsFor m (urlOf r)), nm, st]
        ∧ (payloadsFor m (urlOf r) = [] →
            mergedPayload (payloadsFor m (urlOf r)) = ("\x7b\x7d"))
        ∧ (∀ p1, payloadsFor m (urlOf r) = [p1] →
            mergedPayload (payloadsFor m (urlOf r)) = p1)
        ∧ (1 < (payloadsFor m (urlOf r)).length →
            mergedPayload (payloadsFor m (urlOf r))
              = dumps (merge_json_array (payloadsFor m (urlOf r)))))
    ∧ _aggregate_results [(("A"), [[("u"), ("\x7b\"a\":1\x7d"), ("n1"), ("s1")]]),
        (("B"), [[("u"), ("\x7b\"b\":2\x7d"), ("n1"), ("s1")]])]
      = [[("u"), dumps (merge_json_array [("\x7b\"a\":1\x7d"), ("\x7b\"b\":2\x7d")]),
          ("n1"), ("s1")]]
    ∧ (merge_json_array [("\x7b\"a\":1\x7d"), ("\x7b\"b\":2\x7d")]).hasKey ("a") = true
    ∧ (merge_json_array [("\x7b\"a\":1\x7d"), ("\x7b\"b\":2\x7d")]).hasKey ("b") = true := by
  refine ⟨?_, rfl, rfl, rfl⟩
  intro m r hr
  rw [aggregate_eq_foldEmit] at hr
  rcases foldEmit_mem (pass1 m) _ [] [] r hr with hin | ⟨url, d, hl, hreq⟩
  · simp at hin
  · have hdu : d.url = url := pass1_url m url d hl
    have hjs : d.json_list = payloadsFor m url := by
      have hj := pass1_jsons m url
      simp only [jsonsAt, hl] at hj
      exact hj
    subst hreq
    have hurl : urlOf [d.url, mergedPayload d.json_list, d.name, d.site] = url := by
      simp [urlOf, hdu]
    rw [hurl]
    refine ⟨d.name, d.site, by rw [hdu, hjs], ?_, ?_, ?_⟩
    · intro h0
      simp [mergedPayload, h0]
    · intro p1 h1
      rw [h1]
      exact mergedPayload_single p1
    · intro h2
      simp [mergedPayload, h2]

/-- Counterexample to C4 as stated: a URL contributed by exactly one
endpoint does not always keep its payload unchanged — an empty payload is
replaced by the empty-object string, and two rows with the same URL from
the same single endpoint are deep-merged. -/
theorem C4_counterexample :
    _aggregate_results [(("A"), [[("u"), (""), ("n"), ("s")]])]
      = [[("u"), ("\x7b\x7d"), ("n"), ("s")]]
    ∧ ([("u"), ("\x7b\x7d"), ("n"), ("s")] : Row) ≠ [("u"), (""), ("n"), ("s")]
    ∧ _aggregate_results [(("A"), [[("u"), ("\x7b\"a\":1\x7d"), ("n"), ("s")],
        [("u"), ("\x7b\"b\":2\x7d"), ("n"), ("s")]])]
      = [[("u"), ("\x7b\"a\": 1, \"b\": 2\x7d"), ("n"), ("s")]]
    ∧ ("\x7b\"a\": 1, \"b\": 2\x7d") ≠ ("\x7b\"a\":1\x7d") := by
  refine ⟨rfl, by decide, rfl, by decide⟩

/-- Witness for C4 at the two-endpoint duplicate-URL example. -/
theorem C4_witness :
    ∃ nm st, ([("u"), ("\x7b\"a\": 1, \"b\": 2\x7d"), ("n1"), ("s1")] : Row)
      = [urlOf [("u"), ("\x7b\"a\": 1, \"b\": 2\x7d"), ("n1"), ("s1")],
          mergedPayload (payloadsFor
            [(("A"), [[("u"), ("\x7b\"a\":1\x7d"), ("n1"), ("s1")]]),
              (("B"), [[("u"), ("\x7b\"b\":2\x7d"), ("n1"), ("s1")]])]
            (urlOf [("u"), ("\x7b\"a\": 1, \"b\": 2\x7d"), ("n1"), ("s1")])), nm, st]
      ∧ (payloadsFor [(("A"), [[("u"), ("\x7b\"a\":1\x7d"), ("n1"), ("s1")]]),
            (("B"), [[("u"), ("\x7b\"b\":2\x7d"), ("n1"), ("s1")]])]
          (urlOf [("u"), ("\x7b\"a\": 1, \"b\": 2\x7d"), ("n1"), ("s1")]) = [] →
          mergedPayload (payloadsFor [(("A"), [[("u"), ("\x7b\"a\":1\x7d"), ("n1"), ("s1")]]),
            (("B"), [[("u"), ("\x7b\"b\":2\x7d"), ("n1"), ("s1")]])]
            (urlOf [("u"), ("\x7b\"a\": 1, \"b\": 2\x7d"), ("n1"), ("s1")])) = ("\x7b\x7d"))
      ∧ (∀ p1, payloadsFor [(("A"), [[("u"), ("\x7b\"a\":1\x7d"), ("n1"), ("s1")]]),
            (("B"), [[("u"), ("\x7b\"b\":2\x7d"), ("n1"), ("s1")]])]
          (urlOf [("u"), ("\x7b\"a\": 1, \"b\": 2\x7d"), ("n1"), ("s1")]) = [p1] →
          mergedPayload (payloadsFor [(("A"), [[("u"), ("\x7b\"a\":1\x7d"), ("n1"), ("s1")]]),
            (("B"), [[("u"), ("\x7b\"b\":2\x7d"), ("n1"), ("s1")]])]
            (urlOf [("u"), ("\x7b\"a\": 1, \"b\": 2\x7d"), ("n1"), ("s1")])) = p1)
      ∧ (1 < (payloadsFor [(("A"), [[("u"), ("\x7b\"a\":1\x7d"), ("n1"), ("s1")]]),
            (("B"), [[("u"), ("\x7b\"b\":2\x7d"), ("n1"), ("s1")]])]
          (urlOf [("u"), ("\x7b\"a\": 1, \"b\": 2\x7d"), ("n1"), ("s1")])).length →
          mergedPayload (payloadsFor [(("A"), [[("u"), ("\x7b\"a\":1\x7d"), ("n1"), ("s1")]]),
            (("B"), [[("u"), ("\x7b\"b\":2\x7d"), ("n1"), ("s1")]])]
            (urlOf [("u"), ("\x7b\"a\": 1, \"b\": 2\x7d"), ("n1"), ("s1")]))
            = dumps (merge_json_array (payloadsFor
                [(("A"), [[("u"), ("\x7b\"a\":1\x7d"), ("n1"), ("s1")]]),
                  (("B"), [[("u"), ("\x7b\"b\":2\x7d"), ("n1"), ("s1")]])]
                (urlOf [("u"), ("\x7b\"a\": 1, \"b\": 2\x7d"), ("n1"), ("s1")])))) :=
  C4_payload_merge_policy.1
    [(("A"), [[("u"), ("\x7b\"a\":1\x7d"), ("n1"), ("s1")]]),
      (("B"), [[("u"), ("\x7b\"b\":2\x7d"), ("n1"), ("s1")]])]
    [("u"), ("\x7b\"a\": 1, \"b\": 2\x7d"), ("n1"), ("s1")] (by decide)

theorem foldRows_other (e : String) (rs : List Row) (u : String) :
    ∀ acc, (∀ r2 ∈ rs, urlKeyOf r2 ≠ some u) →
      alookup (rs.foldl (fun a r2 => pass1Insert e r2 a) acc) u = alookup acc u := by
  induction rs with
  | nil =>
    intro acc _
    rfl
  | cons r0 rest ih =>
    intro acc h
    rw [List.foldl_cons, ih _ (fun r2 hr2 => h r2 (List.mem_cons_of_mem r0 hr2)),
      pass1Insert_other e r0 acc u (h r0 (List.mem_cons_self r0 rest))]

theorem pass1_single_lookup (e : String) :
    ∀ (rows : List Row) (acc : List (String × UrlData)),
      (∀ r ∈ rows, ∃ u j nm st, r = [u, j, nm, st] ∧ u ≠ "" ∧ j ≠ "") →
      (rows.map urlOf).Nodup →
      (∀ r ∈ rows, alookup acc (urlOf r) = none) →
      ∀ r ∈ rows, ∀ u j nm st, r = [u, j, nm, st] →
        alookup (rows.foldl (fun a r2 => pass1Insert e r2 a) acc) u
          = some (UrlData.mk u [j] nm st e) := by
  intro rows
  induction rows with
  | nil =>
    intro acc _ _ _ r hr
    cases hr
  | cons r0 rs ih =>
    intro acc hshape hnd hnone r hr u j nm st hre
    obtain ⟨u0, j0, nm0, st0, hr0, hu0, hj0⟩ := hshape r0 (List.mem_cons_self r0 rs)
    subst hr0
    have hlacc : alookup acc u0 = none := hnone _ (List.mem_cons_self _ _)
    have hstep : pass1Insert e [u0, j0, nm0, st0] acc
        = acc ++ [(u0, UrlData.mk u0 [j0] nm0 st0 e)] := by
      simp [pass1Insert, hlacc, hj0]
    have hu0nin : u0 ∉ rs.map urlOf := by
      rw [List.map_cons] at hnd
      exact (List.nodup_cons.mp hnd).1
    rcases List.mem_cons.mp hr with hr1 | hr2
    · rw [hre] at hr1
      injection hr1 with e1 t1
      injection t1 with e2 t2
      injection t2 with e3 t3
      injection t3 with e4 t4
      subst e1
      subst e2
      subst e3
      subst e4
      rw [List.foldl_cons, hstep]
      rw [foldRows_other e rs u _ ?_]
      · exact alookup_append_single_self acc u _ hlacc
      · intro r2 hr2
        obtain ⟨u2, j2, nm2, st2, hr2eq, hu2, hj2⟩ := hshape r2 (List.mem_cons_of_mem _ hr2)
        rw [hr2eq]
        simp only [urlKeyOf]
        intro hcontra
        injection hcontra with hc2
        subst hc2
        exact hu0nin (List.mem_map.mpr ⟨r2, hr2, by rw [hr2eq]; rfl⟩)
    · rw [List.foldl_cons, hstep]
      refine ih (acc ++ [(u0, _)]) (fun r2 hr2 => hshape r2 (List.mem_cons_of_mem _ hr2))
        (by rw [List.map_cons] at hnd; exact (List.nodup_cons.mp hnd).2) ?_ r hr2 u j nm st hre
      intro r2 hr2b
      have hne2 : urlOf r2 ≠ u0 := by
        intro hcontra
        exact hu0nin (hcontra ▸ List.mem_map.mpr ⟨r2, hr2b, rfl⟩)
      rw [alookup_append_single_ne acc u0 (urlOf r2) _ (fun hc => hne2 hc.symm)]
      exact hnone r2 (List.mem_cons_of_mem _ hr2b)

/-- C8 (amended): aggregating a single endpoint's result list returns that
list unchanged in order and content, provided the list is well-formed: each
row has exactly the four fields with a non-empty URL and a non-empty
payload, and the URLs are pairwise distinct. -/
theorem C8_merge_idempotent (endpoint : String) (rows : List Row)
    (hshape : ∀ r ∈ rows, ∃ u j nm st, r = [u, j, nm, st] ∧ u ≠ "" ∧ j ≠ "")
    (hnd : (rows.map urlOf).Nodup) :
    _aggregate_results [(endpoint, rows)] = rows := by
  rw [aggregate_eq_foldEmit]
  have hrr : roundRobin ([(endpoint, rows)].map Prod.snd) = rows := by
    have h1 : ([(endpoint, rows)].map Prod.snd) = [rows] := rfl
    rw [h1, roundRobin_single]
  rw [hrr]
  have hfold := foldEmit_id (pass1 [(endpoint, rows)]) rows [] [] ?_ hnd
  · rw [hfold]
    simp
  · intro r hr
    obtain ⟨u, j, nm, st, hre, hu, hj⟩ := hshape r hr
    refine ⟨u, j, nm, st, hre, hu, by simp, ?_⟩
    have hl := pass1_single_lookup endpoint rows [] hshape hnd
      (fun r2 _ => rfl) r hr u j nm st hre
    exact ⟨_, hl, rfl, rfl, rfl, rfl⟩

/-- Counterexample to C8 as stated: aggregation of a single endpoint's list
is not the identity on arbitrary lists — a short row is dropped, an empty
payload is rewritten to the empty-object string, and two rows sharing a URL
are collapsed into one merged row. -/
theorem C8_counterexample :
    _aggregate_results [(("A"), [[("u")]])] = []
    ∧ ([] : List Row) ≠ [[("u")]]
    ∧ _aggregate_results [(("A"), [[("u"), (""), ("n"), ("s")]])]
        = [[("u"), ("\x7b\x7d"), ("n"), ("s")]]
    ∧ ([[("u"), ("\x7b\x7d"), ("n"), ("s")]] : List Row) ≠ [[("u"), (""), ("n"), ("s")]]
    ∧ _aggregate_results [(("A"), [[("u"), ("\x7b\"a\":1\x7d"), ("n"), ("s")],
        [("u"), ("\x7b\"b\":2\x7d"), ("n"), ("s")]])]
        = [[("u"), ("\x7b\"a\": 1, \"b\": 2\x7d"), ("n"), ("s")]]
    ∧ ([[("u"), ("\x7b\"a\": 1, \"b\": 2\x7d"), ("n"), ("s")]] : List Row)
        ≠ [[("u"), ("\x7b\"a\":1\x7d"), ("n"), ("s")], [("u"), ("\x7b\"b\":2\x7d"), ("n"), ("s")]] := by
  refine ⟨rfl, by decide, rfl, by decide, rfl, by decide⟩

/-- Witness for C8 on a concrete two-row well-formed list. -/
theorem C8_witness :
    _aggregate_results [(("A"), [[("u1"), ("p1"), ("n1"), ("s1")],
        [("u2"), ("p2"), ("n2"), ("s2")]])]
      = [[("u1"), ("p1"), ("n1"), ("s1")], [("u2"), ("p2"), ("n2"), ("s2")]] := by
  refine C8_merge_idempotent ("A") _ ?_ (by decide)
  intro r hr
  rcases List.mem_cons.mp hr with rfl | hr2
  · exact ⟨("u1"), ("p1"), ("n1"), ("s1"), rfl, by decide, by decide⟩
  · rcases List.mem_cons.mp hr2 with rfl | hr3
    · exact ⟨("u2"), ("p2"), ("n2"), ("s2"), rfl, by decide, by decide⟩
    · cases hr3

/-- C1 (amended): for every map of per-endpoint result lists whose rows
have at least four fields and non-empty URLs, the aggregated output is
exactly the round-robin interleave of the per-endpoint lists with each URL
emitted at its first encounter and suppressed at every re-encounter (so the
output URLs are pairwise distinct); in particular, endpoint A returning
u1,u2,u3 and endpoint B returning u4,u5 with all URLs distinct merges in
the order u1,u4,u2,u5,u3 with each URL exactly once. Rows with an empty
URL break the claim as stated (see the counterexample): they are suppressed
outright rather than emitted at first encounter. -/
theorem C1_roundrobin_order :
    (∀ m : List (String × List Row),
      (∀ p ∈ m, ∀ r ∈ p.2, 4 ≤ r.length ∧ urlOf r ≠ "") →
      (_aggregate_results m).map urlOf
          = specFirstEncounters [] ((roundRobin (m.map Prod.snd)).map urlOf)
        ∧ ((_aggregate_results m).map urlOf).Nodup)
    ∧ _aggregate_results
        [(("A"), [[("u1"), ("p"), ("n1"), ("s")], [("u2"), ("p"), ("n2"), ("s")],
            [("u3"), ("p"), ("n3"), ("s")]]),
          (("B"), [[("u4"), ("p"), ("n4"), ("s")], [("u5"), ("p"), ("n5"), ("s")]])]
      = [[("u1"), ("p"), ("n1"), ("s")], [("u4"), ("p"), ("n4"), ("s")],
          [("u2"), ("p"), ("n2"), ("s")], [("u5"), ("p"), ("n5"), ("s")],
          [("u3"), ("p"), ("n3"), ("s")]]
    ∧ (([[("u1"), ("p"), ("n1"), ("s")], [("u4"), ("p"), ("n4"), ("s")],
          [("u2"), ("p"), ("n2"), ("s")], [("u5"), ("p"), ("n5"), ("s")],
          [("u3"), ("p"), ("n3"), ("s")]] : List Row).map urlOf).Nodup := by
  refine ⟨?_, rfl, by decide⟩
  intro m hwf
  have hyp : ∀ r ∈ roundRobin (m.map Prod.snd), r ≠ [] ∧ urlOf r ≠ ""
      ∧ ∃ d, alookup (pass1 m) (urlOf r) = some d ∧ d.url = urlOf r := by
    intro r hr
    obtain ⟨l, hl, hrl⟩ := roundRobin_mem _ r hr
    obtain ⟨p, hp, hpeq⟩ := List.mem_map.mp hl
    rw [← hpeq] at hrl
    obtain ⟨hlen, hu⟩ := hwf p hp r hrl
    obtain ⟨u, j, nm, st, rest, hre⟩ := row_shape_of_len r hlen
    refine ⟨by rw [hre]; simp, hu, ?_⟩
    have hkey : urlKeyOf r = some (urlOf r) := by
      rw [hre]
      simp [urlKeyOf, urlOf]
    have hpres := pass1_presence_of_row m p hp r hrl (urlOf r) hkey
    cases hd : alookup (pass1 m) (urlOf r) with
    | none => exact absurd hd hpres
    | some d => exact ⟨d, rfl, pass1_url m (urlOf r) d hd⟩
  have hmain : (_aggregate_results m).map urlOf
      = specFirstEncounters [] ((roundRobin (m.map Prod.snd)).map urlOf) := by
    rw [aggregate_eq_foldEmit, foldEmit_urls (pass1 m) _ [] [] hyp]
    simp
  refine ⟨hmain, ?_⟩
  rw [hmain]
  exact specFE_nodup _ _

/-- Counterexample to C1 as stated: a result row with an empty URL is
recorded by pass 1 (its merged record exists) but is suppressed outright by
the interleaving pass, so the output is not the round-robin first-encounter
order of the per-endpoint lists for that input. -/
theorem C1_counterexample :
    (_aggregate_results [(("A"), [[(""), ("p"), ("n"), ("s")]])]).map urlOf = []
    ∧ ((roundRobin ([(("A"), [[(""), ("p"), ("n"), ("s")]])].map Prod.snd)).map urlOf) = [("")]
    ∧ specFirstEncounters [] [("")] = [("")]
    ∧ ([] : List String) ≠ [("")]
    ∧ (alookup (pass1 [(("A"), [[(""), ("p"), ("n"), ("s")]])]) ("")).isSome = true := by
  refine ⟨rfl, rfl, rfl, by decide, rfl⟩

/-- Witness for C1 at the two-endpoint fairness example. -/
theorem C1_witness :
    (_aggregate_results
        [(("A"), [[("u1"), ("p"), ("n1"), ("s")], [("u2"), ("p"), ("n2"), ("s")],
            [("u3"), ("p"), ("n3"), ("s")]]),
          (("B"), [[("u4"), ("p"), ("n4"), ("s")], [("u5"), ("p"), ("n5"), ("s")]])]).map urlOf
      = specFirstEncounters []
          ((roundRobin
            ([(("A"), [[("u1"), ("p"), ("n1"), ("s")], [("u2"), ("p"), ("n2"), ("s")],
                [("u3"), ("p"), ("n3"), ("s")]]),
              (("B"), [[("u4"), ("p"), ("n4"), ("s")],
                [("u5"), ("p"), ("n5"), ("s")]])].map Prod.snd)).map urlOf)
    ∧ ((_aggregate_results
        [(("A"), [[("u1"), ("p"), ("n1"), ("s")], [("u2"), ("p"), ("n2"), ("s")],
            [("u3"), ("p"), ("n3"), ("s")]]),
          (("B"), [[("u4"), ("p"), ("n4"), ("s")],
            [("u5"), ("p"), ("n5"), ("s")]])]).map urlOf).Nodup :=
  C1_roundrobin_order.1
    [(("A"), [[("u1"), ("p"), ("n1"), ("s")], [("u2"), ("p"), ("n2"), ("s")],
        [("u3"), ("p"), ("n3"), ("s")]]),
      (("B"), [[("u4"), ("p"), ("n4"), ("s")], [("u5"), ("p"), ("n5"), ("s")]])]
    (by decide)
